import Mathlib

/-!
Verification of the block-alignment and rule-based document-assembly engine
of the overly-specific PDF parser.

The development shallowly embeds the relevant Python sources:

* `src/zip_llama_pymupdf.py` — `span_intersects_block`, `fuzzy_match`
  (difflib `SequenceMatcher.ratio`), `match_blocks` (the page aligner);
* `src/rule_registry/__init__.py` — `RuleCondition`, `ConversionRule.match_condition`,
  `ConversionRuleRegistry` (insertion-ordered dict of rules);
* `src/pipeline.py` — `get_rule_for_block`, `emit_block`,
  `PipelineState.current_block` / `ChapterPipelineState.current_block`;
* `src/post_processing/insert_images.py` — `insert_images`.

Modelling conventions:

* Python numeric values (coordinates, font sizes, page numbers) are modelled
  as `Int`.  The embedded code only ever compares them with the order
  relations, so any linearly ordered type is faithful; integer inputs keep
  every definition kernel-computable.
* Fallible Python code (TypeError, IndexError, AttributeError) is modelled
  with `Except PyErr`.
* Python dynamic attribute access (`getattr(obj, field, None)`) is modelled
  by association lists `PyObj` of attribute name / value pairs.
* The item schemas come from `src/etl/pymupdf_parse.py` (`TextItem`,
  `ImageItem`, `PyMuPdfItem`), which is the only module in the repository
  defining the `PyMuPdfItem` union that `src/zip_llama_pymupdf.py` imports.
-/

namespace PdfParser

/-- Python exceptions that the embedded code can raise. -/
inductive PyErr where
  | typeError
  | indexError
  | attributeError
deriving DecidableEq

/-- Scalar Python values (the condition literals and attribute values this
code compares are strings, numbers and `None`; numbers are modelled as
`Int`). -/
inductive PyScalar where
  | none
  | str (s : String)
  | num (n : Int)
deriving DecidableEq

/-- A Python value as it occurs in rule-condition literals and attribute
values of the embedded code: a scalar, or a list/tuple of scalars (the only
container shape the code and its rules use — e.g. `in`-condition literals,
colors and bounding boxes). -/
inductive PyVal where
  | scalar (v : PyScalar)
  | list (xs : List PyScalar)
deriving DecidableEq

/-- Shorthand for the Python `None` value. -/
abbrev PyVal.none : PyVal := PyVal.scalar PyScalar.none

/-- Shorthand for a Python string value. -/
abbrev PyVal.str (s : String) : PyVal := PyVal.scalar (PyScalar.str s)

/-- Shorthand for a Python number value. -/
abbrev PyVal.num (n : Int) : PyVal := PyVal.scalar (PyScalar.num n)

/-- Python `==` on scalars: equality within one shape, `False` across
shapes, `None == None` is `True`; never raises. -/
def pyScalarEq : PyScalar → PyScalar → Bool
  | PyScalar.none, PyScalar.none => true
  | PyScalar.str a, PyScalar.str b => a == b
  | PyScalar.num a, PyScalar.num b => a == b
  | _, _ => false

/-- Python `==` on the modelled values: scalar equality, or elementwise list
equality; `False` across shapes; never raises. -/
def pyEq : PyVal → PyVal → Bool
  | PyVal.scalar a, PyVal.scalar b => pyScalarEq a b
  | PyVal.list xs, PyVal.list ys =>
    xs.length == ys.length && (List.zip xs ys).all (fun p => pyScalarEq p.1 p.2)
  | _, _ => false

/-- Python `<` on scalars: number/number and string/string (lexicographic)
compare; every other combination, in particular any comparison with `None`,
raises `TypeError`. -/
def pyScalarLt : PyScalar → PyScalar → Except PyErr Bool
  | PyScalar.num a, PyScalar.num b => Except.ok (decide (a < b))
  | PyScalar.str a, PyScalar.str b => Except.ok (decide (a < b))
  | _, _ => Except.error PyErr.typeError

/-- Python `<=` on scalars, same shape rules as `pyScalarLt`. -/
def pyScalarLe : PyScalar → PyScalar → Except PyErr Bool
  | PyScalar.num a, PyScalar.num b => Except.ok (decide (a ≤ b))
  | PyScalar.str a, PyScalar.str b => Except.ok (decide (a ≤ b))
  | _, _ => Except.error PyErr.typeError

/-- Python `<` on lists: lexicographic, raising wherever the first differing
elements do not compare. -/
def pyListLt : List PyScalar → List PyScalar → Except PyErr Bool
  | [], [] => Except.ok false
  | [], _ :: _ => Except.ok true
  | _ :: _, [] => Except.ok false
  | x :: xs, y :: ys =>
    if pyScalarEq x y then pyListLt xs ys else pyScalarLt x y

/-- Python `<=` on lists, lexicographic. -/
def pyListLe : List PyScalar → List PyScalar → Except PyErr Bool
  | [], [] => Except.ok true
  | [], _ :: _ => Except.ok true
  | _ :: _, [] => Except.ok false
  | x :: xs, y :: ys =>
    if pyScalarEq x y then pyListLe xs ys else pyScalarLt x y

/-- Python `<`: scalar or list comparison; cross-shape and `None`
comparisons raise `TypeError`. -/
def pyLt : PyVal → PyVal → Except PyErr Bool
  | PyVal.scalar a, PyVal.scalar b => pyScalarLt a b
  | PyVal.list xs, PyVal.list ys => pyListLt xs ys
  | _, _ => Except.error PyErr.typeError

/-- Python `<=`, same shape rules as `pyLt`. -/
def pyLe : PyVal → PyVal → Except PyErr Bool
  | PyVal.scalar a, PyVal.scalar b => pyScalarLe a b
  | PyVal.list xs, PyVal.list ys => pyListLe xs ys
  | _, _ => Except.error PyErr.typeError

/-- Python `a > b` (equivalent to `b < a` on the modelled types). -/
def pyGt (a b : PyVal) : Except PyErr Bool := pyLt b a

/-- Python `a >= b` (equivalent to `b <= a` on the modelled types). -/
def pyGe (a b : PyVal) : Except PyErr Bool := pyLe b a

/-- Substring test on character lists, Python `sub in s` for strings. -/
def charsContain (hay needle : List Char) : Bool :=
  (List.range (hay.length + 1)).any (fun i => needle.isPrefixOf (hay.drop i))

/-- Python `x in container`: membership by `==` for lists (a list value is
never equal to a scalar element, hence `False`), substring test for strings
(raising `TypeError` when the left operand is not a string), and `TypeError`
for every non-container right operand. -/
def pyIn (x container : PyVal) : Except PyErr Bool :=
  match container with
  | PyVal.list ys =>
    match x with
    | PyVal.scalar a => Except.ok (ys.any (fun y => pyScalarEq a y))
    | PyVal.list _ => Except.ok false
  | PyVal.scalar (PyScalar.str s) =>
    match x with
    | PyVal.scalar (PyScalar.str sub) => Except.ok (charsContain s.data sub.data)
    | _ => Except.error PyErr.typeError
  | PyVal.scalar _ => Except.error PyErr.typeError

/-- A Python object viewed as its attribute map (name / value pairs). -/
abbrev PyObj := List (String × PyVal)

/-- `getattr(obj, field, None)`: `None` when the object itself is `None` or
when the attribute is absent. -/
def pyGetattr (obj : Option PyObj) (field : String) : PyVal :=
  match obj with
  | Option.none => PyVal.none
  | some o =>
    match o.lookup field with
    | some v => v
    | Option.none => PyVal.none

end PdfParser

namespace PdfParser

/-! ### Rule registry (`src/rule_registry/__init__.py`) -/

/-- `RuleCondition.source`. -/
inductive RuleSource where
  | pymupdf
  | llamaparse
deriving DecidableEq

/-- `RuleCondition.operator`: one of `==`, `>`, `<`, `>=`, `<=`, `in`. -/
inductive RuleOp where
  | eq
  | gt
  | lt
  | ge
  | le
  | inOp
deriving DecidableEq

/-- `RuleCondition`. -/
structure RuleCondition where
  source : RuleSource
  field : String
  operator : RuleOp
  value : PyVal

/-- `ConversionRule` (its data fields; `construct_node` is external). -/
structure ConversionRule where
  id : String
  description : String
  conditions : List RuleCondition
  output_node_type : String

/-- The object a condition is evaluated against: the semantic item for
`source == "llamaparse"`, else the (possibly absent) pymupdf item. -/
def resolveSource (c : RuleCondition) (llamaparse_input : PyObj)
    (pymupdf_input : Option PyObj) : Option PyObj :=
  match c.source with
  | RuleSource.llamaparse => some llamaparse_input
  | RuleSource.pymupdf => pymupdf_input

/-- One step of `ConversionRule.match_condition`: resolve the source object,
read the named field with `getattr(obj, field, None)`, apply the operator. -/
def evalCondition (c : RuleCondition) (llamaparse_input : PyObj)
    (pymupdf_input : Option PyObj) : Except PyErr Bool :=
  let input_obj : Option PyObj := resolveSource c llamaparse_input pymupdf_input
  let field_value := pyGetattr input_obj c.field
  match c.operator with
  | RuleOp.eq => Except.ok (pyEq field_value c.value)
  | RuleOp.gt => pyGt field_value c.value
  | RuleOp.lt => pyLt field_value c.value
  | RuleOp.ge => pyGe field_value c.value
  | RuleOp.le => pyLe field_value c.value
  | RuleOp.inOp => pyIn field_value c.value

/-- `ConversionRule.match_condition` over a condition list: conditions are
ANDed, the first failing condition returns `False`, an undefined comparison
propagates as an exception. -/
def matchConditions (conds : List RuleCondition) (llamaparse_input : PyObj)
    (pymupdf_input : Option PyObj) : Except PyErr Bool :=
  match conds with
  | [] => Except.ok true
  | c :: cs => do
    let condition_matches ← evalCondition c llamaparse_input pymupdf_input
    if condition_matches then matchConditions cs llamaparse_input pymupdf_input
    else Except.ok false

/-- `ConversionRule.match_condition`. -/
def ConversionRule.match_condition (rule : ConversionRule)
    (llamaparse_input : PyObj) (pymupdf_input : Option PyObj) :
    Except PyErr Bool :=
  matchConditions rule.conditions llamaparse_input pymupdf_input

/-- `ConversionRuleRegistry._rules`: a Python `dict` keyed by rule id,
modelled as an association list in insertion order. -/
abbrev Registry := List (String × ConversionRule)

/-- Registering a rule (`_rules[rule.id] = rule`): overwriting an existing id
keeps its position (Python dict semantics); a new id is appended. -/
def registerRule (reg : Registry) (rule : ConversionRule) : Registry :=
  if reg.any (fun p => p.1 == rule.id) then
    reg.map (fun p => if p.1 == rule.id then (p.1, rule) else p)
  else
    reg ++ [(rule.id, rule)]

/-- `ConversionRuleRegistry.get_all_rules`: the dict's values in insertion
order. -/
def get_all_rules (reg : Registry) : List ConversionRule :=
  reg.map (fun p => p.2)

end PdfParser

namespace PdfParser

/-! ### Extraction item schemas (`src/etl/pymupdf_parse.py`, llama-parse `PageItem`) -/

/-- The llama-parse `BBox` (`{x, y, w, h}`). -/
structure BBox where
  x : Int
  y : Int
  w : Int
  h : Int
deriving DecidableEq

/-- The llama-parse `PageItem` fields the embedded code reads
(`type`, `lvl`, `value`, `bBox`). -/
structure PageItem where
  type : String
  lvl : Option Int
  value : String
  bBox : BBox
deriving DecidableEq

/-- `PyMuPdfItem = Union[TextItem, ImageItem]` from `src/etl/pymupdf_parse.py`.
Bounding boxes are `(x0, y0, x1, y1)` tuples. -/
inductive PyMuPdfItem where
  | text (page : Int) (text : String) (color : Int × Int × Int) (font : String)
      (size : Int) (bbox : Int × Int × Int × Int)
  | image (page : Int) (src : String) (bbox : Int × Int × Int × Int)
deriving DecidableEq

/-- The `type` discriminator field (`"text"` / `"image"`). -/
def PyMuPdfItem.type : PyMuPdfItem → String
  | PyMuPdfItem.text _ _ _ _ _ _ => "text"
  | PyMuPdfItem.image _ _ _ => "image"

/-- The `page` field. -/
def PyMuPdfItem.page : PyMuPdfItem → Int
  | PyMuPdfItem.text p _ _ _ _ _ => p
  | PyMuPdfItem.image p _ _ => p

/-- The `bbox` field. -/
def PyMuPdfItem.bbox : PyMuPdfItem → Int × Int × Int × Int
  | PyMuPdfItem.text _ _ _ _ _ b => b
  | PyMuPdfItem.image _ _ b => b

/-- The vertical coordinate `bbox[1]` (`y0`). -/
def PyMuPdfItem.y0 (it : PyMuPdfItem) : Int := it.bbox.2.1

/-- The llama-parse item as a Python attribute map, for dynamic `getattr`
access by rule conditions (object-valued attributes such as `bBox` are not
condition material and are omitted). -/
def PageItem.toPyObj (it : PageItem) : PyObj :=
  [("type", PyVal.str it.type),
   ("lvl", match it.lvl with
     | some n => PyVal.num n
     | Option.none => PyVal.none),
   ("value", PyVal.str it.value)]

/-- The pymupdf item as a Python attribute map, for dynamic `getattr` access
by rule conditions (tuples are modelled as lists). -/
def PyMuPdfItem.toPyObj : PyMuPdfItem → PyObj
  | PyMuPdfItem.text pg tx c f sz bb =>
    [("type", PyVal.str "text"), ("page", PyVal.num pg),
     ("text", PyVal.str tx),
     ("color", PyVal.list [PyScalar.num c.1, PyScalar.num c.2.1, PyScalar.num c.2.2]),
     ("font", PyVal.str f), ("size", PyVal.num sz),
     ("bbox", PyVal.list [PyScalar.num bb.1, PyScalar.num bb.2.1,
       PyScalar.num bb.2.2.1, PyScalar.num bb.2.2.2])]
  | PyMuPdfItem.image pg s bb =>
    [("type", PyVal.str "image"), ("page", PyVal.num pg),
     ("src", PyVal.str s),
     ("bbox", PyVal.list [PyScalar.num bb.1, PyScalar.num bb.2.1,
       PyScalar.num bb.2.2.1, PyScalar.num bb.2.2.2])]

end PdfParser

namespace PdfParser

/-! ### The page aligner (`src/zip_llama_pymupdf.py`) -/

/-- `span_intersects_block(span, block_bbox, margin=5)`. -/
def span_intersects_block (span : Int × Int × Int × Int) (block_bbox : BBox)
    (margin : Int) : Bool :=
  let x0 := span.1
  let y0 := span.2.1
  let x1 := span.2.2.1
  let y1 := span.2.2.2
  let bx0 := block_bbox.x - margin
  let by0 := block_bbox.y - margin
  let bx1 := block_bbox.x + block_bbox.w + margin
  let by1 := block_bbox.y + block_bbox.h + margin
  !(decide (x1 < bx0) || decide (x0 > bx1) || decide (y1 < by0) || decide (y0 > by1))

/-- Length of the longest common prefix of two character lists. -/
def commonPrefixLen : List Char → List Char → Nat
  | a :: as, b :: bs => if a = b then commonPrefixLen as bs + 1 else 0
  | _, _ => 0

/-- difflib `SequenceMatcher.find_longest_match` on junk-free input (both
strings here are shorter than the 200-character autojunk cutoff): the longest
common substring, ties resolved to the leftmost start in `a`, then in `b`.
Returns `(i, j, size)`. -/
def findLongestMatch (a b : List Char) : Nat × Nat × Nat :=
  ((List.range (a.length + 1)).flatMap
      (fun i => (List.range (b.length + 1)).map (fun j => (i, j)))).foldl
    (fun best ij =>
      let k := commonPrefixLen (a.drop ij.1) (b.drop ij.2)
      if k > best.2.2 then (ij.1, ij.2, k) else best)
    (0, 0, 0)

/-- Total number of matched characters over difflib's recursive matching-block
decomposition (`get_matching_blocks`), computed with a fuel argument; the fuel
`a.length + b.length + 1` used below always suffices because every recursive
call strictly shrinks the combined length. -/
def matchTotalF : Nat → List Char → List Char → Nat
  | 0, _, _ => 0
  | fuel + 1, a, b =>
    let m := findLongestMatch a b
    if m.2.2 = 0 then 0
    else
      matchTotalF fuel (a.take m.1) (b.take m.2.1) + m.2.2 +
        matchTotalF fuel (a.drop (m.1 + m.2.2)) (b.drop (m.2.1 + m.2.2))

/-- Total number of matched characters between two character lists. -/
def matchTotal (a b : List Char) : Nat :=
  matchTotalF (a.length + b.length + 1) a b

/-- `SequenceMatcher(None, a, b).ratio() > 0.85`, stated exactly over the
rationals: `2*M/T > 85/100  ↔  200*M > 85*T` (and `ratio() = 1.0 > 0.85` when
both strings are empty). -/
def ratioAboveThreshold (m t : Nat) : Bool :=
  if t = 0 then true else decide (200 * m > 85 * t)

/-- Python `str.strip()` on a character list: drop whitespace from both ends. -/
def stripChars (cs : List Char) : List Char :=
  ((cs.dropWhile Char.isWhitespace).reverse.dropWhile Char.isWhitespace).reverse

/-- Python `s.lower().strip()` as a character list. -/
def lowerStrip (s : String) : List Char :=
  stripChars (s.data.map Char.toLower)

/-- `fuzzy_match(a, b, threshold=0.85)`: normalise both strings with
`.lower().strip()` and compare the similarity ratio against the threshold. -/
def fuzzy_match (a b : String) : Bool :=
  let a_norm := lowerStrip a
  let b_norm := lowerStrip b
  ratioAboveThreshold (matchTotal a_norm b_norm) (a_norm.length + b_norm.length)

/-- `UnifiedBlock` as produced by the aligner in `src/zip_llama_pymupdf.py`
(`match_method`, `llama_item`, `fitz_items`). -/
structure UnifiedBlockA where
  match_method : String
  llama_item : PageItem
  fitz_items : List PyMuPdfItem
deriving DecidableEq

/-- The geometric-overlap candidate list for one semantic item
(`fitz_matches` in `match_blocks`). -/
def geoMatches (pymupdf_content : List PyMuPdfItem) (llama_item : PageItem) :
    List PyMuPdfItem :=
  pymupdf_content.filter
    (fun fitz_item => span_intersects_block fitz_item.bbox llama_item.bBox 5)

/-- The fuzzy-text candidate list for one semantic item
(`fitz_fuzzy_matches` in `match_blocks`): text items whose own text fuzzily
matches the whole semantic text. -/
def fuzzyMatches (pymupdf_content : List PyMuPdfItem) (llama_item : PageItem) :
    List PyMuPdfItem :=
  pymupdf_content.filter
    (fun fitz_item =>
      match fitz_item with
      | PyMuPdfItem.text _ t _ _ _ _ => fuzzy_match t llama_item.value
      | PyMuPdfItem.image _ _ _ => false)

/-- The loop body of `match_blocks` for one semantic item. -/
def matchOneBlock (pymupdf_content : List PyMuPdfItem) (llama_item : PageItem) :
    UnifiedBlockA :=
  let fitz_matches := geoMatches pymupdf_content llama_item
  if fitz_matches.isEmpty then
    let fitz_fuzzy_matches := fuzzyMatches pymupdf_content llama_item
    if fitz_fuzzy_matches.isEmpty then
      { match_method := "none", llama_item := llama_item, fitz_items := [] }
    else
      { match_method := "fuzzy", llama_item := llama_item,
        fitz_items := fitz_fuzzy_matches }
  else
    { match_method := "bbox", llama_item := llama_item,
      fitz_items := fitz_matches }

/-- `match_blocks(llama_parse_page, pymupdf_page)`: one `UnifiedBlock` per
semantic item, in order. -/
def match_blocks (llama_items : List PageItem)
    (pymupdf_content : List PyMuPdfItem) : List UnifiedBlockA :=
  llama_items.map (matchOneBlock pymupdf_content)

end PdfParser

namespace PdfParser

/-! ### Pipeline blocks and rule resolution (`src/pipeline.py`, `src/etl/zip_llama_pymupdf.py`) -/

/-- `UnifiedBlock` as carried through the pipeline
(`src/etl/zip_llama_pymupdf.py`): adds the memoised `conversion_rule` and the
block `id`. -/
structure UnifiedBlock where
  match_method : String
  llama_item : PageItem
  fitz_items : Option (List PyMuPdfItem)
  conversion_rule : Option String
  id : String
deriving DecidableEq

/-- `state.current_block.fitz_items[0] if state.current_block.fitz_items else
None`: `None` and the empty list are both falsy. -/
def firstFitzItem (block : UnifiedBlock) : Option PyMuPdfItem :=
  match block.fitz_items with
  | some (x :: _) => some x
  | _ => Option.none

/-- The rule-scanning loop of `get_rule_for_block`: try each registered rule
in order, stop at the first whose `match_condition` returns `True`. -/
def findMatchingRule (rules : List ConversionRule) (llamaparse_input : PyObj)
    (pymupdf_input : Option PyObj) : Except PyErr (Option ConversionRule) :=
  match rules with
  | [] => Except.ok Option.none
  | rule :: rest => do
    let m ← rule.match_condition llamaparse_input pymupdf_input
    if m then Except.ok (some rule)
    else findMatchingRule rest llamaparse_input pymupdf_input

/-- `get_rule_for_block`: if `conversion_rule` is already set the block is
returned untouched; otherwise the registered rules are scanned in order and
the first match is recorded on the block. -/
def get_rule_for_block (rules : List ConversionRule) (block : UnifiedBlock) :
    Except PyErr UnifiedBlock :=
  if block.conversion_rule.isSome then Except.ok block
  else do
    let found ← findMatchingRule rules block.llama_item.toPyObj
      ((firstFitzItem block).map PyMuPdfItem.toPyObj)
    match found with
    | some rule => Except.ok { block with conversion_rule := some rule.id }
    | Option.none => Except.ok block

/-- `ZippedOutputsPage` (the fields the modelled code reads: `page`,
`pymupdf_page.content`, `unified_blocks`). -/
structure ZippedOutputsPage where
  page : Int
  pymupdf_content : List PyMuPdfItem
  unified_blocks : List UnifiedBlock
deriving DecidableEq

/-- Python list subscription `l[i]` with negative-index support:
`l[i]` is `l[len(l)+i]` for `i < 0`; out-of-range access is `IndexError`
(modelled as `Option.none`). -/
def pyIndex {α : Type} (l : List α) (i : Int) : Option α :=
  if 0 ≤ i then l.get? i.toNat
  else if 0 ≤ i + l.length then l.get? (i + l.length).toNat
  else Option.none

/-- `PipelineState.current_block` (and identically
`ChapterPipelineState.current_block`): guarded list subscriptions with
Python index semantics. -/
def current_block (zipped_pages : List ZippedOutputsPage)
    (page_index block_index : Option Int) : Except PyErr (Option UnifiedBlock) :=
  if zipped_pages.isEmpty then Except.ok Option.none
  else
    match page_index, block_index with
    | some p, some b =>
      if (zipped_pages.length : Int) ≤ p then Except.ok Option.none
      else
        match pyIndex zipped_pages p with
        | Option.none => Except.error PyErr.indexError
        | some pg =>
          if (pg.unified_blocks.length : Int) ≤ b then Except.ok Option.none
          else
            match pyIndex pg.unified_blocks b with
            | Option.none => Except.error PyErr.indexError
            | some blk => Except.ok (some blk)
    | _, _ => Except.ok Option.none

end PdfParser

namespace PdfParser

/-! ### Output nodes and `emit_block` (`src/pipeline.py`, `src/schema/tiptap_models.py`) -/

/-- The attribute fields of output nodes that the modelled passes read
(`BaseAttrs.unified_block_id` plus `ImageNode.Attrs.src/alt/title`); absent
attributes are `Option.none`. -/
structure NodeAttrs where
  src : Option String
  alt : Option String
  title : Option String
  unified_block_id : Option String
deriving DecidableEq

/-- An output (Tiptap/ProseMirror) node: discriminant `type`, optional
`attrs`, child list `content`, and — for leaf text nodes — a `text` field
(`Option.none` models a node class without a `text` attribute). -/
inductive Node where
  | mk (type : String) (attrs : Option NodeAttrs) (content : List Node)
      (text : Option String)

/-- The `type` discriminant. -/
def Node.type : Node → String
  | Node.mk t _ _ _ => t

/-- The optional `attrs`. -/
def Node.attrs : Node → Option NodeAttrs
  | Node.mk _ a _ _ => a

/-- The child list. -/
def Node.content : Node → List Node
  | Node.mk _ _ c _ => c

/-- The optional `text` attribute. -/
def Node.text : Node → Option String
  | Node.mk _ _ _ tx => tx

/-- A fresh `BaseAttrs()` (all fields unset). -/
def defaultBaseAttrs : NodeAttrs :=
  { src := Option.none, alt := Option.none, title := Option.none,
    unified_block_id := Option.none }

/-- The attrs-stamping step of `emit_block`: synthesise `BaseAttrs()` when the
constructed node has no attrs, then set `attrs.unified_block_id`. -/
def stampUnifiedBlockId (n : Node) (block_id : String) : Node :=
  match n with
  | Node.mk t a c tx =>
    let a' :=
      match a with
      | some attrs0 => { attrs0 with unified_block_id := some block_id }
      | Option.none => { defaultBaseAttrs with unified_block_id := some block_id }
    Node.mk t (some a') c tx

/-- `emit_block`: stamp the constructed node and append it to the document's
content list (copy-on-write `content + [node]`). -/
def emit_block (content : List Node) (constructed_node : Node)
    (block_id : String) : List Node :=
  content ++ [stampUnifiedBlockId constructed_node block_id]

end PdfParser

namespace PdfParser

/-! ### The image reconciliation pass (`src/post_processing/insert_images.py`) -/

/-- Python truthiness of an optional string attribute: `None` and the empty
string are falsy. -/
def truthy : Option String → Bool
  | some s => !(s == "")
  | Option.none => false

/-- `node.attrs.title` if attrs are present. -/
def attrTitle (node : Node) : Option String :=
  match node.attrs with
  | some a => a.title
  | Option.none => Option.none

/-- `node.attrs.src` if attrs are present. -/
def attrSrc (node : Node) : Option String :=
  match node.attrs with
  | some a => a.src
  | Option.none => Option.none

/-- `node.attrs.unified_block_id` if attrs are present. -/
def attrUbid (node : Node) : Option String :=
  match node.attrs with
  | some a => a.unified_block_id
  | Option.none => Option.none

/-- The first source collection of `insert_images`: `node.attrs.src` of every
top-level node with `node.type == "image" and node.attrs and node.attrs.src`
(so an empty-string `src` is never collected). -/
def baseImageSrcs (content : List Node) : List String :=
  content.filterMap (fun node =>
    if node.type == "image" then
      match attrSrc node with
      | some s => if s == "" then Option.none else some s
      | Option.none => Option.none
    else Option.none)

/-- The second source collection: the `attrs.src` of every child of the first
`imageHeader` node; reading `img.attrs.src` on a child without attrs raises
`AttributeError`. -/
def imageHeaderSrcs (content : List Node) : Except PyErr (List (Option String)) :=
  match content.filter (fun node => node.type == "imageHeader") with
  | [] => Except.ok []
  | hdr :: _ =>
    hdr.content.mapM (fun img =>
      match img.attrs with
      | some a => Except.ok a.src
      | Option.none => Except.error PyErr.attributeError)

/-- The `block.id -> page.page` dict comprehension (`block_id_to_page_num`). -/
def pageNumEntries (zps : List ZippedOutputsPage) : List (String × Int) :=
  zps.flatMap (fun pg => pg.unified_blocks.map (fun b => (b.id, pg.page)))

/-- The `block.id -> block` dict comprehension (`block_id_to_block`). -/
def blockEntries (zps : List ZippedOutputsPage) : List (String × UnifiedBlock) :=
  zps.flatMap (fun pg => pg.unified_blocks.map (fun b => (b.id, b)))

/-- Lookup in a dict built from an entry list: later entries with the same
key overwrite earlier ones, so the last matching entry wins. -/
def dictGet {β : Type} (entries : List (String × β)) (key : String) : Option β :=
  ((entries.filter (fun p => p.1 == key)).getLast?).map (fun p => p.2)

/-- The candidate collection of `insert_images`: every style item of kind
`image` on any page whose `src` is not among the already-present sources. -/
def imagesToInsert (zps : List ZippedOutputsPage)
    (existing_image_srcs : List (Option String)) : List PyMuPdfItem :=
  zps.flatMap (fun pg =>
    pg.pymupdf_content.filter (fun item =>
      match item with
      | PyMuPdfItem.image _ s _ =>
        !(existing_image_srcs.any (fun e => e == some s))
      | PyMuPdfItem.text _ _ _ _ _ _ => false))

/-- Ascending key order for the candidate sort:
`key=lambda img: (img.page, img.bbox[1])`. -/
def imgKeyLe (a b : PyMuPdfItem) : Bool :=
  decide (a.page < b.page) || (a.page == b.page && decide (a.y0 ≤ b.y0))

/-- Stable insertion of a later element: it goes after every element already
placed whose key is less than or equal to its own. -/
def insertSortedByKey (x : PyMuPdfItem) : List PyMuPdfItem → List PyMuPdfItem
  | [] => [x]
  | y :: ys => if imgKeyLe y x then y :: insertSortedByKey x ys else x :: y :: ys

/-- Python's stable `list.sort(key=lambda img: (img.page, img.bbox[1]))`,
realised as a stable insertion sort (same output as CPython's stable sort:
ascending by key, equal keys in original order). -/
def pySortImages (items : List PyMuPdfItem) : List PyMuPdfItem :=
  items.foldl (fun acc x => insertSortedByKey x acc) []

/-- Python `s.split(sep)` for a single-character separator: empty fields are
preserved. -/
def splitOnCharAux (sep : Char) : List Char → List Char → List (List Char)
  | [], cur => [cur.reverse]
  | c :: rest, cur =>
    if c == sep then cur.reverse :: splitOnCharAux sep rest []
    else splitOnCharAux sep rest (c :: cur)

/-- Python `s.split(sep)` on character lists. -/
def splitOnChar (sep : Char) (cs : List Char) : List (List Char) :=
  splitOnCharAux sep cs []

/-- The digits of a candidate integer literal, or `Option.none` when some
character is not a digit (Python `int(...)` raises `ValueError`). -/
def digitsVal : List Char → Option Nat
  | [] => Option.none
  | cs =>
    if cs.all Char.isDigit then
      some (cs.foldl (fun n c => 10 * n + (c.toNat - 48)) 0)
    else Option.none

/-- Python `int(s)` on a string: optional surrounding whitespace, optional
sign, decimal digits; anything else is a `ValueError` (`Option.none`). -/
def parsePyInt (s : String) : Option Int :=
  match stripChars s.data with
  | '-' :: rest => (digitsVal rest).map (fun n => -(n : Int))
  | '+' :: rest => (digitsVal rest).map (fun n => (n : Int))
  | cs => (digitsVal cs).map (fun n => (n : Int))

/-- The page number inferred for a content node during the insertion scan:
an image node with a truthy title is parsed as `int(title.split(" ")[1])`
(`-1` when parsing fails); otherwise a node with a truthy
`unified_block_id` is looked up in the block-to-page dict (default `-1`);
otherwise `-1` (page undeterminable). -/
def nodeInferredPage (block_id_to_page_num : List (String × Int)) (node : Node) :
    Int :=
  if node.type == "image" && truthy (attrTitle node) then
    match attrTitle node with
    | some t =>
      match ((splitOnChar ' ' t.data).get? 1).bind
          (fun w => parsePyInt (String.mk w)) with
      | some k => k
      | Option.none => -1
    | Option.none => -1
  else if truthy (attrUbid node) then
    match attrUbid node with
    | some u =>
      match dictGet block_id_to_page_num u with
      | some k => k
      | Option.none => -1
    | Option.none => -1
  else -1

/-- The vertical position inferred for a content node during the insertion
scan: the `bbox[1]` of the last fitz item of its originating unified block;
`Option.none` models the `float("inf")` default ("bottom of page"). -/
def nodeInferredY0 (block_id_to_block : List (String × UnifiedBlock))
    (node : Node) : Option Int :=
  if truthy (attrUbid node) then
    match attrUbid node with
    | some u =>
      match dictGet block_id_to_block u with
      | some b =>
        match b.fitz_items with
        | some fitz =>
          match fitz.getLast? with
          | some f => some f.y0
          | Option.none => Option.none
        | Option.none => Option.none
      | Option.none => Option.none
    | Option.none => Option.none
  else Option.none

/-- The insertion-point scan of `insert_images`: the first index whose node
is determinably on a later page, or determinably on the same page and below
the image (a node with unknown vertical position counts as `+inf`, so the
image is inserted before it); `Option.none` when no spot is found. -/
def findInsertionIndex (block_id_to_page_num : List (String × Int))
    (block_id_to_block : List (String × UnifiedBlock))
    (image_page image_y0 : Int) : List Node → Nat → Option Nat
  | [], _ => Option.none
  | node :: rest, i =>
    let node_page := nodeInferredPage block_id_to_page_num node
    if node_page == -1 then
      findInsertionIndex block_id_to_page_num block_id_to_block image_page
        image_y0 rest (i + 1)
    else if decide (image_page < node_page) then some i
    else if decide (node_page < image_page) then
      findInsertionIndex block_id_to_page_num block_id_to_block image_page
        image_y0 rest (i + 1)
    else
      match nodeInferredY0 block_id_to_block node with
      | Option.none => some i
      | some node_y0 =>
        if decide (image_y0 < node_y0) then some i
        else
          findInsertionIndex block_id_to_page_num block_id_to_block image_page
            image_y0 rest (i + 1)

/-- Scan for the closing `]` of a markdown-style description, failing at a
newline (the regex `\[.*?\]` cannot cross one); returns the remainder after
the matched `]`. -/
def findCloseBracket : List Char → Option (List Char)
  | [] => Option.none
  | c :: rest =>
    if c == ']' then some rest
    else if c == '\n' then Option.none
    else findCloseBracket rest

/-- `re.sub(r"\[.*?\]", "", text)` with explicit fuel (each step consumes at
least one character, so `cs.length` fuel always suffices). -/
def removeBracketedF : Nat → List Char → List Char
  | 0, cs => cs
  | _, [] => []
  | fuel + 1, c :: rest =>
    if c == '[' then
      match findCloseBracket rest with
      | some rest' => removeBracketedF fuel rest'
      | Option.none => c :: removeBracketedF fuel rest
    else c :: removeBracketedF fuel rest

/-- `re.sub(r"\[.*?\]", "", text)`: remove every non-overlapping shortest
bracketed segment, scanning left to right. -/
def pySubBrackets (cs : List Char) : List Char :=
  removeBracketedF cs.length cs

/-- Replace the text of the first child node
(`node.content[0].text = cleaned_text`). -/
def setFirstChildText (node : Node) (newText : String) : Node :=
  match node with
  | Node.mk t a c tx =>
    match c with
    | child :: rest =>
      match child with
      | Node.mk ct ca cc _ => Node.mk t a (Node.mk ct ca cc (some newText) :: rest) tx
    | [] => Node.mk t a c tx

/-- What one look-ahead check of `insert_images` does at `content[check_idx]`:
stop the scan (index past the end), do nothing, mark the index for deletion,
or rewrite the node in place. -/
inductive LookAction where
  | stop
  | skip
  | mark
  | update (replacement : Node)

/-- One look-ahead check of `insert_images` at `check_idx`: a paragraph node
whose first child carries truthy text gets its bracketed descriptions
removed; if that changes the stripped text the node is marked for deletion
(nothing left) or rewritten in place (text left), every other node is
skipped, and an index past the end of the list stops the scan. -/
def lookStep (content : List Node) (check_idx : Nat) : LookAction :=
  match content.get? check_idx with
  | Option.none => LookAction.stop
  | some node =>
    if node.type == "paragraph" then
      match node.content with
      | child :: _ =>
        match child.text with
        | some original_text =>
          if original_text == "" then LookAction.skip
          else
            let cleaned := stripChars (pySubBrackets original_text.data)
            if cleaned == stripChars original_text.data then LookAction.skip
            else if cleaned.isEmpty then LookAction.mark
            else LookAction.update (setFirstChildText node (String.mk cleaned))
        | Option.none => LookAction.skip
      | [] => LookAction.skip
    else LookAction.skip

/-- The look-ahead loop of `insert_images` over offsets `1..3` from the
insertion index, performing each check's action.  Returns the updated
content and the marked indices in ascending order. -/
def lookaheadGo (content : List Node) (insertion_index : Nat)
    (marks : List Nat) : List Nat → List Node × List Nat
  | [] => (content, marks)
  | i :: is =>
    match lookStep content (insertion_index + i) with
    | LookAction.stop => (content, marks)
    | LookAction.skip => lookaheadGo content insertion_index marks is
    | LookAction.mark =>
      lookaheadGo content insertion_index (marks ++ [insertion_index + i]) is
    | LookAction.update replacement =>
      lookaheadGo (content.set (insertion_index + i) replacement)
        insertion_index marks is

/-- `content.pop(idx)` over a list of indices (already sorted descending). -/
def popIndicesDesc (content : List Node) : List Nat → List Node
  | [] => content
  | i :: is => popIndicesDesc (content.eraseIdx i) is

/-- The freshly constructed `ImageNode` for a candidate style item. -/
def imageNodeFor (item_page : Int) (item_src : String) : Node :=
  Node.mk "image"
    (some { src := some item_src, alt := some "An image from the PDF",
            title := some ("Page " ++ toString item_page ++ " image"),
            unified_block_id := Option.none })
    [] Option.none

/-- One iteration of the insertion loop of `insert_images`: find the spot for
the candidate (append at the end if none), insert the new image node, then
run the look-ahead description cleanup and delete the marked paragraphs
(highest index first). -/
def insertImageItem (block_id_to_page_num : List (String × Int))
    (block_id_to_block : List (String × UnifiedBlock)) (content : List Node)
    (item : PyMuPdfItem) : List Node :=
  match item with
  | PyMuPdfItem.text _ _ _ _ _ _ => content
  | PyMuPdfItem.image pg s bb =>
    let image_node := imageNodeFor pg s
    let inserted :=
      match findInsertionIndex block_id_to_page_num block_id_to_block pg
          bb.2.1 content 0 with
      | some i => (content.insertIdx i image_node, i)
      | Option.none => (content ++ [image_node], content.length)
    let scanned := lookaheadGo inserted.1 inserted.2 [] [1, 2, 3]
    popIndicesDesc scanned.1 scanned.2.reverse

/-- The state fields `insert_images` reads and writes: the document's content
list (`state.blocks`) and the zipped pages. -/
structure InsertImagesState where
  blocks : List Node
  zipped_pages : List ZippedOutputsPage

/-- `insert_images(state)`: collect the present image sources once, gather
the not-yet-present image style items, sort them by `(page, y0)`, and insert
them one by one; with no candidates the state is returned unchanged. -/
def insert_images (state : InsertImagesState) :
    Except PyErr InsertImagesState := do
  let content := state.blocks
  let header_srcs ← imageHeaderSrcs content
  let existing_image_srcs := (baseImageSrcs content).map some ++ header_srcs
  let block_id_to_page_num := pageNumEntries state.zipped_pages
  let block_id_to_block := blockEntries state.zipped_pages
  let images_to_insert :=
    pySortImages (imagesToInsert state.zipped_pages existing_image_srcs)
  if images_to_insert.isEmpty then Except.ok state
  else
    Except.ok
      { state with
        blocks := images_to_insert.foldl
          (insertImageItem block_id_to_page_num block_id_to_block) content }

end PdfParser

namespace PdfParser

set_option maxRecDepth 8000

/-! ### Claims about the aligner (C1, C3, C9) -/

/-- No style item belongs to two distinct emitted blocks. -/
def noDoubleConsumption (blocks : List UnifiedBlockA) : Bool :=
  match blocks with
  | [] => true
  | b :: rest =>
    b.fitz_items.all
      (fun it => rest.all (fun b' => !(decide (it ∈ b'.fitz_items)))) &&
    noDoubleConsumption rest

/-- Every style item of every emitted block comes from the page's item list. -/
def drawnFromContent (blocks : List UnifiedBlockA)
    (content : List PyMuPdfItem) : Bool :=
  blocks.all (fun b => b.fitz_items.all (fun it => decide (it ∈ content)))

/-- Claim C1 as stated: on every page, no style item is assigned to two
blocks, and every assigned style item comes from the page's own list. -/
def C1_consumption_claim : Prop :=
  ∀ (llama_items : List PageItem) (content : List PyMuPdfItem),
    noDoubleConsumption (match_blocks llama_items content) = true ∧
    drawnFromContent (match_blocks llama_items content) content = true

/-- Two semantic items sharing a bounding box, one style item inside it. -/
def cexL1 : PageItem :=
  { type := "text", lvl := Option.none, value := "v1",
    bBox := { x := 0, y := 0, w := 5, h := 5 } }

/-- The second semantic item of the C1 scenario. -/
def cexL2 : PageItem :=
  { type := "text", lvl := Option.none, value := "v2",
    bBox := { x := 0, y := 0, w := 5, h := 5 } }

/-- The single style item of the C1 scenario. -/
def cexF : PyMuPdfItem := PyMuPdfItem.text 1 "v1" (0, 0, 0) "F" 10 (0, 0, 1, 1)

/-- C1 fails on the code: with two semantic items whose boxes both contain
the single style item, `match_blocks` assigns that style item to both
emitted blocks (there is no per-page "used" set). -/
theorem C1_counterexample : ¬ C1_consumption_claim := fun h =>
  absurd (h [cexL1, cexL2] [cexF]).1 (by decide)

/-- C1 amended: the subset half holds — every style item appearing in an
emitted block is drawn from the page's original style-item list (but a style
item may be assigned to several blocks). -/
theorem C1_amended_subset :
    ∀ (llama_items : List PageItem) (content : List PyMuPdfItem),
      ∀ b ∈ match_blocks llama_items content, ∀ it ∈ b.fitz_items,
        it ∈ content := by
  intro items content b hb it hit
  rw [match_blocks, List.mem_map] at hb
  obtain ⟨L, _, rfl⟩ := hb
  rw [matchOneBlock] at hit
  by_cases h1 : (geoMatches content L).isEmpty
  · rw [if_pos h1] at hit
    by_cases h2 : (fuzzyMatches content L).isEmpty
    · rw [if_pos h2] at hit
      simp at hit
    · rw [if_neg h2] at hit
      exact List.mem_of_mem_filter hit
  · rw [if_neg h1] at hit
    exact List.mem_of_mem_filter hit

/-- Witness for `C1_amended_subset` at the concrete C1 scenario. -/
theorem C1_amended_subset_witness :
    ({ match_method := "bbox", llama_item := cexL1,
       fitz_items := [cexF] } : UnifiedBlockA) ∈ match_blocks [cexL1, cexL2] [cexF] ∧
    cexF ∈ [cexF] :=
  ⟨by decide,
   C1_amended_subset [cexL1, cexL2] [cexF]
     { match_method := "bbox", llama_item := cexL1, fitz_items := [cexF] }
     (by decide) cexF (by decide)⟩

/-- Claim C3 as stated, instantiated to a two-item greedy run: a semantic
item with no geometric overlap, two in-order unused style text items that
each miss the 0.85 normalised-similarity threshold individually while their
single-space concatenation clears it without exceeding 1.5x the target
length, must be emitted as one block with `matchMethod = fuzzyText`
consuming both items. -/
def C3_greedy_claim : Prop :=
  ∀ (L : PageItem) (pg1 pg2 : Int) (t1 t2 : String) (c1 c2 : Int × Int × Int)
    (f1 f2 : String) (s1 s2 : Int) (bb1 bb2 : Int × Int × Int × Int),
    span_intersects_block bb1 L.bBox 5 = false →
    span_intersects_block bb2 L.bBox 5 = false →
    fuzzy_match t1 L.value = false →
    fuzzy_match t2 L.value = false →
    fuzzy_match (t1 ++ " " ++ t2) L.value = true →
    2 * (t1 ++ " " ++ t2).length ≤ 3 * L.value.length →
    (match_blocks [L] [PyMuPdfItem.text pg1 t1 c1 f1 s1 bb1,
                       PyMuPdfItem.text pg2 t2 c2 f2 s2 bb2]).map
        (fun b => (b.match_method, b.fitz_items)) =
      [("fuzzyText", [PyMuPdfItem.text pg1 t1 c1 f1 s1 bb1,
                      PyMuPdfItem.text pg2 t2 c2 f2 s2 bb2])]

/-- The semantic item of the C3 scenario (`value = "hello world"`, box far
from the style items). -/
def c3L : PageItem :=
  { type := "text", lvl := Option.none, value := "hello world",
    bBox := { x := 100, y := 100, w := 5, h := 5 } }

/-- C3 fails on the code: with semantic text `"hello world"` and style items
`"hello"` and `"world"` (each of ratio 0.625 < 0.85, joined ratio 1.0),
`match_blocks` emits `matchMethod = "none"` with no style items — there is no
greedy concatenation step, and no block is ever labelled `"fuzzyText"`. -/
theorem C3_counterexample : ¬ C3_greedy_claim := fun h =>
  absurd
    (h c3L 1 1 "hello" "world" (0, 0, 0) (0, 0, 0) "F" "F" 10 10
      (0, 0, 1, 1) (0, 2, 1, 3) (by decide) (by decide) (by decide)
      (by decide) (by decide) (by decide))
    (by decide)

/-- C3 amended: when a semantic item has no geometric match, each style text
item is compared individually (never concatenated) against the semantic text
by the normalised similarity test `fuzzy_match`; the block collects exactly
the individually clearing items and is labelled `"fuzzy"` when any exist,
else `"none"` with no items. -/
theorem C3_amended_individual_fuzzy :
    ∀ (llama_items : List PageItem) (content : List PyMuPdfItem) (i : Nat)
      (L : PageItem), llama_items.get? i = some L →
      (geoMatches content L).isEmpty = true →
      (match_blocks llama_items content).get? i =
        some (if (fuzzyMatches content L).isEmpty then
          { match_method := "none", llama_item := L, fitz_items := [] }
        else
          { match_method := "fuzzy", llama_item := L,
            fitz_items := fuzzyMatches content L }) := by
  intro items content i L hL hgeo
  rw [match_blocks, List.get?_map, hL, Option.map_some']
  rw [matchOneBlock, if_pos hgeo]

/-- Witness for `C3_amended_individual_fuzzy` at the concrete C3 scenario. -/
theorem C3_amended_individual_fuzzy_witness :
    ([c3L].get? 0 = some c3L) ∧
    (match_blocks [c3L]
        [PyMuPdfItem.text 1 "hello" (0, 0, 0) "F" 10 (0, 0, 1, 1),
         PyMuPdfItem.text 1 "world" (0, 0, 0) "F" 10 (0, 2, 1, 3)]).get? 0 =
      some { match_method := "none", llama_item := c3L, fitz_items := [] } :=
  ⟨by decide,
   by
    have h := C3_amended_individual_fuzzy [c3L]
      [PyMuPdfItem.text 1 "hello" (0, 0, 0) "F" 10 (0, 0, 1, 1),
       PyMuPdfItem.text 1 "world" (0, 0, 0) "F" 10 (0, 2, 1, 3)] 0 c3L
      (by decide) (by decide)
    rwa [if_pos (by decide)] at h⟩

/-- C9 (alignment never raises on an unmatched item): `match_blocks` is a
total function producing exactly one block per semantic item, and a semantic
item for which both matching strategies produce no candidates is emitted as
`matchMethod = "none"` with an empty style-item list, while the remaining
items are still processed. -/
theorem C9_unmatched_yields_none :
    ∀ (llama_items : List PageItem) (content : List PyMuPdfItem),
      (match_blocks llama_items content).length = llama_items.length ∧
      ∀ (i : Nat) (L : PageItem), llama_items.get? i = some L →
        (geoMatches content L).isEmpty = true →
        (fuzzyMatches content L).isEmpty = true →
        (match_blocks llama_items content).get? i =
          some { match_method := "none", llama_item := L, fitz_items := [] } := by
  intro items content
  constructor
  · rw [match_blocks, List.length_map]
  · intro i L hL hgeo hfuzzy
    rw [match_blocks, List.get?_map, hL, Option.map_some']
    rw [matchOneBlock, if_pos hgeo, if_pos hfuzzy]

/-- The fully unmatched semantic item used in the C9 witness. -/
def c9L : PageItem :=
  { type := "text", lvl := Option.none, value := "zzz",
    bBox := { x := 100, y := 100, w := 5, h := 5 } }

/-- Witness for `C9_unmatched_yields_none`: a semantic item matching nothing
is followed by further processed items. -/
theorem C9_unmatched_yields_none_witness :
    (match_blocks [c9L, c3L]
      [PyMuPdfItem.text 1 "hello" (0, 0, 0) "F" 10 (0, 0, 1, 1)]).get? 0 =
      some { match_method := "none", llama_item := c9L, fitz_items := [] } :=
  (C9_unmatched_yields_none [c9L, c3L]
    [PyMuPdfItem.text 1 "hello" (0, 0, 0) "F" 10 (0, 0, 1, 1)]).2 0 c9L
    (by decide) (by decide) (by decide)

end PdfParser

namespace PdfParser

/-! ### Claims about rule resolution (C4, C5, C8) -/

/-- The exact rule test `get_rule_for_block` runs for one rule against the
current block. -/
def blockRuleMatch (rule : ConversionRule) (block : UnifiedBlock) :
    Except PyErr Bool :=
  rule.match_condition block.llama_item.toPyObj
    ((firstFitzItem block).map PyMuPdfItem.toPyObj)

/-- `findMatchingRule` returns the first rule (in list order) whose match
test succeeds, provided every earlier rule's test returns `False`. -/
theorem findMatchingRule_first (rules : List ConversionRule) (llama : PyObj)
    (pym : Option PyObj) :
    ∀ (i : Nat) (r : ConversionRule), rules.get? i = some r →
      r.match_condition llama pym = Except.ok true →
      (∀ (j : Nat) (r' : ConversionRule), j < i → rules.get? j = some r' →
        r'.match_condition llama pym = Except.ok false) →
      findMatchingRule rules llama pym = Except.ok (some r) := by
  induction rules with
  | nil => intro i r hget; simp at hget
  | cons hd tl ih =>
    intro i r hget hmatch hbefore
    cases i with
    | zero =>
      have hr : hd = r := by simpa using hget
      subst hr
      rw [findMatchingRule, hmatch]
      rfl
    | succ n =>
      have hfalse : hd.match_condition llama pym = Except.ok false :=
        hbefore 0 hd (Nat.succ_pos n) rfl
      have htl : findMatchingRule tl llama pym = Except.ok (some r) :=
        ih n r (by simpa using hget) hmatch
          (fun j r' hj hget' => hbefore (j + 1) r' (Nat.succ_lt_succ hj)
            (by simpa using hget'))
      rw [findMatchingRule, hfalse]
      simpa using htl

end PdfParser

namespace PdfParser

/-- C4 (first-match-wins in registration order): for any registry state and
any block without a resolved rule, if the rule at position `i` of the
registry's insertion-ordered rule list matches the block and all
earlier-registered rules evaluate to a non-match, `get_rule_for_block`
records exactly that rule's id — registration order decides, never
specificity. -/
theorem C4_first_match_wins (reg : Registry) (block : UnifiedBlock)
    (hb : block.conversion_rule = Option.none) (i : Nat) (r : ConversionRule)
    (hget : (get_all_rules reg).get? i = some r)
    (hmatch : blockRuleMatch r block = Except.ok true)
    (hbefore : ∀ (j : Nat) (r' : ConversionRule), j < i →
      (get_all_rules reg).get? j = some r' →
      blockRuleMatch r' block = Except.ok false) :
    get_rule_for_block (get_all_rules reg) block =
      Except.ok { block with conversion_rule := some r.id } := by
  rw [get_rule_for_block, if_neg (by rw [hb]; simp)]
  rw [findMatchingRule_first (get_all_rules reg) _ _ i r hget hmatch hbefore]
  rfl

/-- The permissive rule of the C4 witness (no conditions, matches
everything). -/
def c4Permissive : ConversionRule :=
  { id := "permissive", description := "matches every block", conditions := [],
    output_node_type := "paragraph" }

/-- The more specific rule of the C4 witness (also matches the block). -/
def c4Specific : ConversionRule :=
  { id := "specific", description := "matches text items",
    conditions := [{ source := RuleSource.llamaparse, field := "type",
                     operator := RuleOp.eq, value := PyVal.str "text" }],
    output_node_type := "paragraph" }

/-- The unresolved block of the C4/C5 witnesses. -/
def c4Block : UnifiedBlock :=
  { match_method := "bbox", llama_item := cexL1,
    fitz_items := some [cexF], conversion_rule := Option.none, id := "blk-1" }

/-- Witness for `C4_first_match_wins`: registering a permissive rule first
and a more specific matching rule second resolves to the permissive one. -/
theorem C4_first_match_wins_witness :
    blockRuleMatch c4Permissive c4Block = Except.ok true ∧
    blockRuleMatch c4Specific c4Block = Except.ok true ∧
    get_rule_for_block (get_all_rules (registerRule (registerRule [] c4Permissive) c4Specific))
        c4Block =
      Except.ok { c4Block with conversion_rule := some "permissive" } :=
  ⟨rfl, rfl,
   C4_first_match_wins (registerRule (registerRule [] c4Permissive) c4Specific)
     c4Block rfl 0 c4Permissive rfl rfl
     (fun j r' hj _ => absurd hj (Nat.not_lt_zero j))⟩

/-- C5 (idempotent rule resolution): once a block's `conversion_rule` is set,
`get_rule_for_block` returns the block unchanged (and hence the same id) no
matter which registry state — before or after arbitrary registrations,
overwrites or removals — it is run against. -/
theorem C5_resolution_idempotent (block : UnifiedBlock) (rid : String)
    (hb : block.conversion_rule = some rid) (reg1 reg2 : Registry) :
    get_rule_for_block (get_all_rules reg1) block = Except.ok block ∧
    get_rule_for_block (get_all_rules reg2) block = Except.ok block := by
  constructor <;> rw [get_rule_for_block, if_pos (by rw [hb]; rfl)]

/-- Witness for `C5_resolution_idempotent`: a block already resolved to
`"permissive"` is untouched by resolution against two different registries. -/
theorem C5_resolution_idempotent_witness :
    get_rule_for_block (get_all_rules []) { c4Block with conversion_rule := some "permissive" } =
      Except.ok { c4Block with conversion_rule := some "permissive" } ∧
    get_rule_for_block (get_all_rules (registerRule [] c4Specific))
        { c4Block with conversion_rule := some "permissive" } =
      Except.ok { c4Block with conversion_rule := some "permissive" } :=
  C5_resolution_idempotent { c4Block with conversion_rule := some "permissive" }
    "permissive" rfl [] (registerRule [] c4Specific)

/-- Claim C8 as stated: a condition naming a field absent on its resolved
source object evaluates as a non-match — the rule returns `False` rather
than raising — for each of the six operators. -/
def C8_missing_field_claim : Prop :=
  ∀ (op : RuleOp) (v : PyVal) (field : String) (llama : PyObj)
    (pym : Option PyObj) (rule : ConversionRule),
    rule.conditions = [{ source := RuleSource.llamaparse, field := field,
                         operator := op, value := v }] →
    llama.lookup field = Option.none →
    rule.match_condition llama pym = Except.ok false

/-- The single-condition rule of the C8 counterexample: `missing > 5`. -/
def c8Rule : ConversionRule :=
  { id := "r8", description := "condition on an absent field",
    conditions := [{ source := RuleSource.llamaparse, field := "missing",
                     operator := RuleOp.gt, value := PyVal.num 5 }],
    output_node_type := "paragraph" }

/-- C8 fails on the code: with operator `>` on an absent field the comparison
`None > 5` raises `TypeError` (a hard error), it does not return `False`. -/
theorem C8_counterexample : ¬ C8_missing_field_claim := fun h => by
  have hc := h RuleOp.gt (PyVal.num 5) "missing" [("type", PyVal.str "text")]
    Option.none c8Rule rfl rfl
  rw [show c8Rule.match_condition [("type", PyVal.str "text")] Option.none =
    Except.error PyErr.typeError from rfl] at hc
  exact Except.noConfusion hc

/-- `pyEq PyVal.none v` is `false` for every non-`None` value. -/
theorem pyEq_none_left_eq_false (v : PyVal) (hv : v ≠ PyVal.none) :
    pyEq PyVal.none v = false := by
  cases v with
  | scalar a => cases a with
    | none => exact absurd rfl hv
    | str s => rfl
    | num n => rfl
  | list xs => rfl

/-- `pyLt v None` raises for every value. -/
theorem pyLt_none_right (v : PyVal) : pyLt v PyVal.none = Except.error PyErr.typeError := by
  cases v with
  | scalar a => cases a <;> rfl
  | list xs => rfl

/-- `pyLt None v` raises for every value. -/
theorem pyLt_none_left (v : PyVal) : pyLt PyVal.none v = Except.error PyErr.typeError := by
  cases v with
  | scalar a => cases a <;> rfl
  | list xs => rfl

/-- `pyLe v None` raises for every value. -/
theorem pyLe_none_right (v : PyVal) : pyLe v PyVal.none = Except.error PyErr.typeError := by
  cases v with
  | scalar a => cases a <;> rfl
  | list xs => rfl

/-- `pyLe None v` raises for every value. -/
theorem pyLe_none_left (v : PyVal) : pyLe PyVal.none v = Except.error PyErr.typeError := by
  cases v with
  | scalar a => cases a <;> rfl
  | list xs => rfl

/-- C8 amended: for a single-condition rule whose named field is absent on
the resolved source object, the `==` operator yields a non-match whenever the
literal is not `None`, and `in` with a list literal yields a non-match
whenever no member equals `None`; but each ordering operator
(`>`, `<`, `>=`, `<=`) raises a `TypeError` that propagates as a hard
error. -/
theorem C8_amended_missing_field (c : RuleCondition) (llama : PyObj)
    (pym : Option PyObj) (rule : ConversionRule)
    (hrule : rule.conditions = [c])
    (habsent : pyGetattr (resolveSource c llama pym) c.field = PyVal.none) :
    (c.operator = RuleOp.eq → c.value ≠ PyVal.none →
      rule.match_condition llama pym = Except.ok false) ∧
    (∀ xs, c.operator = RuleOp.inOp → c.value = PyVal.list xs →
      (∀ x ∈ xs, pyScalarEq PyScalar.none x = false) →
      rule.match_condition llama pym = Except.ok false) ∧
    (c.operator = RuleOp.gt ∨ c.operator = RuleOp.lt ∨
        c.operator = RuleOp.ge ∨ c.operator = RuleOp.le →
      rule.match_condition llama pym = Except.error PyErr.typeError) := by
  have hcond : ∀ (e : Except PyErr Bool), evalCondition c llama pym = e →
      rule.match_condition llama pym =
        e.bind (fun m => if m then Except.ok true else Except.ok false) := by
    intro e he
    rw [ConversionRule.match_condition, hrule, matchConditions, he]
    cases e <;> rfl
  refine ⟨?_, ?_, ?_⟩
  · intro hop hv
    refine (hcond (Except.ok false) ?_).trans rfl
    rw [evalCondition, habsent, hop]
    rw [pyEq_none_left_eq_false c.value hv]
  · intro xs hop hval hxs
    refine (hcond (Except.ok false) ?_).trans rfl
    rw [evalCondition, habsent, hop, hval]
    rw [show pyIn PyVal.none (PyVal.list xs) =
      Except.ok (xs.any (fun y => pyScalarEq PyScalar.none y)) from rfl]
    rw [List.any_eq_false.mpr (by intro x hx; rw [hxs x hx]; simp)]
  · intro hop
    rcases hop with hop | hop | hop | hop
    · refine (hcond (Except.error PyErr.typeError) ?_).trans rfl
      rw [evalCondition, habsent, hop]
      exact pyLt_none_right c.value
    · refine (hcond (Except.error PyErr.typeError) ?_).trans rfl
      rw [evalCondition, habsent, hop]
      exact pyLt_none_left c.value
    · refine (hcond (Except.error PyErr.typeError) ?_).trans rfl
      rw [evalCondition, habsent, hop]
      exact pyLe_none_right c.value
    · refine (hcond (Except.error PyErr.typeError) ?_).trans rfl
      rw [evalCondition, habsent, hop]
      exact pyLe_none_left c.value

/-- The `==`-on-absent-field rule of the C8 witness. -/
def c8EqRule : ConversionRule :=
  { id := "r8eq", description := "equality condition on an absent field",
    conditions := [{ source := RuleSource.llamaparse, field := "missing",
                     operator := RuleOp.eq, value := PyVal.str "text" }],
    output_node_type := "p" }

/-- Witness for `C8_amended_missing_field`: the `==` and `>` cases at a
concrete rule and object. -/
theorem C8_amended_missing_field_witness :
    c8EqRule.match_condition [("type", PyVal.str "text")] Option.none =
      Except.ok false ∧
    c8Rule.match_condition [("type", PyVal.str "text")] Option.none =
      Except.error PyErr.typeError :=
  ⟨(C8_amended_missing_field
      { source := RuleSource.llamaparse, field := "missing",
        operator := RuleOp.eq, value := PyVal.str "text" }
      [("type", PyVal.str "text")] Option.none c8EqRule rfl rfl).1 rfl
      (by decide),
   (C8_amended_missing_field
      { source := RuleSource.llamaparse, field := "missing",
        operator := RuleOp.gt, value := PyVal.num 5 }
      [("type", PyVal.str "text")] Option.none c8Rule rfl rfl).2.2
      (Or.inl rfl)⟩

end PdfParser

namespace PdfParser

/-! ### Claim about the pipeline cursor (C10) -/

/-- `l[-1]` is the last element of a non-empty list. -/
theorem pyIndex_neg_one {α : Type} (l : List α) (h : l ≠ []) :
    pyIndex l (-1) = some (l.getLast h) := by
  have hlen : 1 ≤ l.length := List.length_pos.mpr h
  rw [pyIndex, if_neg (by omega), if_pos (by omega)]
  have htn : ((-1 : Int) + l.length).toNat = l.length - 1 := by omega
  rw [htn, ← List.getLast?_eq_get?, List.getLast?_eq_getLast l h]

/-- `l[len(l) - 1]` is the last element of a non-empty list. -/
theorem pyIndex_len_sub_one {α : Type} (l : List α) (h : l ≠ []) :
    pyIndex l ((l.length : Int) - 1) = some (l.getLast h) := by
  have hlen : 1 ≤ l.length := List.length_pos.mpr h
  rw [pyIndex, if_pos (by omega)]
  have htn : ((l.length : Int) - 1).toNat = l.length - 1 := by omega
  rw [htn, ← List.getLast?_eq_get?, List.getLast?_eq_getLast l h]

/-- Evaluation of `current_block` at in-range integer indices. -/
theorem current_block_eval (zp : List ZippedOutputsPage) (h : zp ≠ [])
    (p b : Int) (blk : UnifiedBlock)
    (hplt : ¬ (zp.length : Int) ≤ p)
    (hp : pyIndex zp p = some (zp.getLast h))
    (hblt : ¬ ((zp.getLast h).unified_blocks.length : Int) ≤ b)
    (hb : pyIndex (zp.getLast h).unified_blocks b = some blk) :
    current_block zp (some p) (some b) = Except.ok (some blk) := by
  have hne : ¬ zp.isEmpty = true := by
    simp [List.isEmpty_iff]
    exact h
  rw [current_block, if_neg hne]
  rw [if_neg hplt, hp]
  dsimp only
  rw [if_neg hblt, hb]

/-- C10: in the not-yet-started cursor state `page_index = -1`,
`block_index = -1` over a non-empty page list (whose last page has at least
one block), `current_block` does not report "no block": Python negative
indexing makes it return the last unified block of the last page — exactly
what it returns when positioned at the final block, so the two states are
indistinguishable through `current_block`. -/
theorem C10_unstarted_cursor_reads_last_block (zp : List ZippedOutputsPage)
    (h : zp ≠ []) (hlast : (zp.getLast h).unified_blocks ≠ []) :
    current_block zp (some (-1)) (some (-1)) =
      Except.ok (some ((zp.getLast h).unified_blocks.getLast hlast)) ∧
    current_block zp (some (-1)) (some (-1)) =
      current_block zp (some ((zp.length : Int) - 1))
        (some (((zp.getLast h).unified_blocks.length : Int) - 1)) := by
  have hplen : 1 ≤ zp.length := List.length_pos.mpr h
  have hblen : 1 ≤ (zp.getLast h).unified_blocks.length := List.length_pos.mpr hlast
  have h1 : current_block zp (some (-1)) (some (-1)) =
      Except.ok (some ((zp.getLast h).unified_blocks.getLast hlast)) :=
    current_block_eval zp h (-1) (-1) _ (by omega) (pyIndex_neg_one zp h)
      (by omega) (pyIndex_neg_one _ hlast)
  refine ⟨h1, h1.trans ?_⟩
  exact (current_block_eval zp h ((zp.length : Int) - 1)
    (((zp.getLast h).unified_blocks.length : Int) - 1) _ (by omega)
    (pyIndex_len_sub_one zp h) (by omega) (pyIndex_len_sub_one _ hlast)).symm

/-- The two-page state of the C10 witness. -/
def c10Pages : List ZippedOutputsPage :=
  [{ page := 1, pymupdf_content := [], unified_blocks := [] },
   { page := 2, pymupdf_content := [],
     unified_blocks := [{ match_method := "none", llama_item := cexL1,
                          fitz_items := some [], conversion_rule := Option.none,
                          id := "b1" },
                        { match_method := "none", llama_item := cexL2,
                          fitz_items := some [], conversion_rule := Option.none,
                          id := "b2" }] }]

/-- Witness for `C10_unstarted_cursor_reads_last_block`: with two pages whose
last page holds blocks `b1, b2`, the `(-1, -1)` cursor reads `b2`. -/
theorem C10_unstarted_cursor_reads_last_block_witness :
    current_block c10Pages (some (-1)) (some (-1)) =
      Except.ok (some ((c10Pages.getLast (by decide)).unified_blocks.getLast
        (by decide))) :=
  (C10_unstarted_cursor_reads_last_block c10Pages (by decide) (by decide)).1

end PdfParser

namespace PdfParser

/-! ### Structural lemmas about the insertion, cleanup and deletion steps -/

/-- Nodes other than paragraphs (the only node kind `insert_images` ever
deletes or rewrites). -/
def nonParagraph (n : Node) : Bool := !(n.type == "paragraph")

/-- `imageHeader` nodes. -/
def isHeaderNode (n : Node) : Bool := n.type == "imageHeader"

/-- The description cleanup rewrites a paragraph's child text but keeps the
node's type. -/
theorem setFirstChildText_type (n : Node) (t : String) :
    (setFirstChildText n t).type = n.type := by
  cases n with
  | mk ty a c tx =>
    cases c with
    | nil => rfl
    | cons child rest => cases child; rfl

/-- Replacing an element on which `p` fails by another on which `p` fails
leaves `filter p` unchanged. -/
theorem filter_set_of_false {p : Node → Bool} :
    ∀ (l : List Node) (i : Nat) (x y : Node), l.get? i = some x →
      p x = false → p y = false → (l.set i y).filter p = l.filter p := by
  intro l
  induction l with
  | nil => intro i x y hx; simp at hx
  | cons a as ih =>
    intro i x y hx hpx hpy
    cases i with
    | zero =>
      have hax : a = x := by simpa using hx
      subst hax
      simp only [List.set]
      rw [List.filter_cons, List.filter_cons, hpx, hpy]
      simp
    | succ n =>
      simp only [List.set]
      rw [List.filter_cons, List.filter_cons, ih n x y (by simpa using hx) hpx hpy]

/-- Deleting an element on which `p` fails leaves `filter p` unchanged. -/
theorem filter_eraseIdx_of_false {p : Node → Bool} :
    ∀ (l : List Node) (i : Nat) (x : Node), l.get? i = some x →
      p x = false → (l.eraseIdx i).filter p = l.filter p := by
  intro l
  induction l with
  | nil => intro i x hx; simp at hx
  | cons a as ih =>
    intro i x hx hpx
    cases i with
    | zero =>
      have hax : a = x := by simpa using hx
      subst hax
      simp only [List.eraseIdx]
      rw [List.filter_cons, hpx]
      simp
    | succ n =>
      simp only [List.eraseIdx]
      rw [List.filter_cons, List.filter_cons, ih n x (by simpa using hx) hpx]

/-- Inserting an element on which `p` fails leaves `filter p` unchanged. -/
theorem filter_insertIdx_of_false {p : Node → Bool} :
    ∀ (l : List Node) (n : Nat) (a : Node), p a = false →
      (l.insertIdx n a).filter p = l.filter p := by
  intro l
  induction l with
  | nil =>
    intro n a hpa
    cases n with
    | zero =>
      show (a :: ([] : List Node)).filter p = ([] : List Node).filter p
      rw [List.filter_cons, hpa]
      simp
    | succ m => rfl
  | cons x xs ih =>
    intro n a hpa
    cases n with
    | zero =>
      show (a :: x :: xs).filter p = (x :: xs).filter p
      rw [List.filter_cons, hpa]
      simp
    | succ m =>
      show (x :: xs.insertIdx m a).filter p = (x :: xs).filter p
      rw [List.filter_cons, List.filter_cons, ih m a hpa]

/-- A list is a sublist of itself with an element inserted anywhere. -/
theorem sublist_insertIdx : ∀ (l : List Node) (n : Nat) (a : Node),
    l.Sublist (l.insertIdx n a) := by
  intro l
  induction l with
  | nil =>
    intro n a
    cases n with
    | zero => exact List.nil_sublist [a]
    | succ m => exact List.Sublist.refl []
  | cons x xs ih =>
    intro n a
    cases n with
    | zero => exact List.sublist_cons_self a (x :: xs)
    | succ m => exact List.Sublist.cons₂ x (ih m a)

end PdfParser

namespace PdfParser

/-- A check is marked for deletion only at a paragraph node. -/
theorem lookStep_mark_paragraph (content : List Node) (idx : Nat)
    (h : lookStep content idx = LookAction.mark) :
    ∃ node, content.get? idx = some node ∧ node.type = "paragraph" := by
  rw [lookStep] at h
  split at h
  · exact absurd h (by simp)
  next node hget =>
    split at h
    next htype =>
      refine ⟨node, hget, by simpa using htype⟩
    next htype => exact absurd h (by simp)

/-- A check rewrites only a paragraph node, and the replacement is again a
paragraph node. -/
theorem lookStep_update_paragraph (content : List Node) (idx : Nat)
    (n' : Node) (h : lookStep content idx = LookAction.update n') :
    ∃ node, content.get? idx = some node ∧ node.type = "paragraph" ∧
      n'.type = "paragraph" := by
  rw [lookStep] at h
  split at h
  · exact absurd h (by simp)
  next node hget =>
    split at h
    next htype =>
      refine ⟨node, hget, by simpa using htype, ?_⟩
      split at h
      next child rest hc =>
        split at h
        next original_text htx =>
          split at h
          · exact absurd h (by simp)
          · dsimp only at h
            split at h
            · exact absurd h (by simp)
            · split at h
              · exact absurd h (by simp)
              · have hrepl : setFirstChildText node
                    (String.mk (stripChars (pySubBrackets original_text.data))) = n' := by
                  simpa using h
                rw [← hrepl, setFirstChildText_type]
                simpa using htype
        next htx => exact absurd h (by simp)
      next hc => exact absurd h (by simp)
    next htype => exact absurd h (by simp)

/-- The look-ahead loop only ever replaces paragraph nodes by paragraph
nodes, so `filter p` is untouched for any predicate that fails on
paragraphs. -/
theorem lookahead_filter (p : Node → Bool)
    (hpara : ∀ n : Node, n.type = "paragraph" → p n = false) :
    ∀ (offsets : List Nat) (content : List Node) (ii : Nat) (marks : List Nat),
      (lookaheadGo content ii marks offsets).1.filter p = content.filter p := by
  intro offsets
  induction offsets with
  | nil => intro content ii marks; rfl
  | cons i is ih =>
    intro content ii marks
    rw [lookaheadGo]
    cases hstep : lookStep content (ii + i) with
    | stop => rfl
    | skip => exact ih content ii marks
    | mark => exact ih content ii (marks ++ [ii + i])
    | update n' =>
      obtain ⟨node, hget, hpar, hpar'⟩ :=
        lookStep_update_paragraph content (ii + i) n' hstep
      rw [ih (content.set (ii + i) n') ii marks]
      exact filter_set_of_false content (ii + i) node n' hget
        (hpara node hpar) (hpara n' hpar')

/-- Every index the look-ahead loop marks for deletion points at a paragraph
node of the loop's final content (previously marked indices keep pointing at
paragraphs through the in-place rewrites). -/
theorem lookahead_marks_paragraph :
    ∀ (offsets : List Nat) (content : List Node) (ii : Nat) (marks : List Nat),
      (∀ m ∈ marks, ∃ x, content.get? m = some x ∧ x.type = "paragraph") →
      ∀ m ∈ (lookaheadGo content ii marks offsets).2,
        ∃ x, (lookaheadGo content ii marks offsets).1.get? m = some x ∧
          x.type = "paragraph" := by
  intro offsets
  induction offsets with
  | nil => intro content ii marks hm; exact hm
  | cons i is ih =>
    intro content ii marks hm
    rw [lookaheadGo]
    cases hstep : lookStep content (ii + i) with
    | stop => exact hm
    | skip => exact ih content ii marks hm
    | mark =>
      refine ih content ii (marks ++ [ii + i]) ?_
      intro m hmem
      rcases List.mem_append.mp hmem with hmem | hmem
      · exact hm m hmem
      · obtain ⟨node, hget, hpar⟩ := lookStep_mark_paragraph content (ii + i) hstep
        have hmi : m = ii + i := by simpa using hmem
        exact ⟨node, by rw [hmi]; exact hget, hpar⟩
    | update n' =>
      obtain ⟨node, hget, hpar, hpar'⟩ :=
        lookStep_update_paragraph content (ii + i) n' hstep
      refine ih (content.set (ii + i) n') ii marks ?_
      intro m hmem
      obtain ⟨x, hx, hxpar⟩ := hm m hmem
      by_cases hmi : m = ii + i
      · refine ⟨n', ?_, hpar'⟩
        have hlen : m < content.length := (List.get?_eq_some.mp hx).choose
        rw [hmi, List.get?_eq_getElem?, List.getElem?_set_eq (hmi ▸ hlen)]
      · refine ⟨x, ?_, hxpar⟩
        rw [List.get?_eq_getElem?, List.getElem?_set_ne (fun hc => hmi hc.symm),
          ← List.get?_eq_getElem?]
        exact hx

end PdfParser

namespace PdfParser

/-- The marked indices of the look-ahead loop are strictly ascending,
provided the offsets are and all previous marks lie below every coming
check index. -/
theorem lookahead_marks_lt :
    ∀ (offsets : List Nat), offsets.Pairwise (· < ·) →
      ∀ (content : List Node) (ii : Nat) (marks : List Nat),
        marks.Pairwise (· < ·) →
        (∀ m ∈ marks, ∀ o ∈ offsets, m < ii + o) →
        (lookaheadGo content ii marks offsets).2.Pairwise (· < ·) := by
  intro offsets
  induction offsets with
  | nil => intro _ content ii marks hp _; exact hp
  | cons i is ih =>
    intro hoff content ii marks hp hb
    rw [lookaheadGo]
    cases hstep : lookStep content (ii + i) with
    | stop => exact hp
    | skip =>
      exact ih hoff.of_cons content ii marks hp
        (fun m hm o ho => hb m hm o (List.mem_cons_of_mem i ho))
    | mark =>
      refine ih hoff.of_cons content ii (marks ++ [ii + i]) ?_ ?_
      · rw [List.pairwise_append]
        refine ⟨hp, List.pairwise_singleton _ _, ?_⟩
        intro a ha b hbm
        have hbe : b = ii + i := by simpa using hbm
        have := hb a ha i (List.mem_cons_self i is)
        omega
      · intro m hm o ho
        rcases List.mem_append.mp hm with hm | hm
        · exact hb m hm o (List.mem_cons_of_mem i ho)
        · have hme : m = ii + i := by simpa using hm
          have hio : i < o := (List.pairwise_cons.mp hoff).1 o ho
          omega
    | update n' =>
      exact ih hoff.of_cons _ ii marks hp
        (fun m hm o ho => hb m hm o (List.mem_cons_of_mem i ho))

/-- Popping a strictly descending list of paragraph-holding indices leaves
`filter p` unchanged for any predicate failing on paragraphs. -/
theorem popIndicesDesc_filter (p : Node → Bool)
    (hpara : ∀ n : Node, n.type = "paragraph" → p n = false) :
    ∀ (marks : List Nat) (content : List Node),
      marks.Pairwise (· > ·) →
      (∀ m ∈ marks, ∃ x, content.get? m = some x ∧ x.type = "paragraph") →
      (popIndicesDesc content marks).filter p = content.filter p := by
  intro marks
  induction marks with
  | nil => intro content _ _; rfl
  | cons i is ih =>
    intro content hp hm
    rw [popIndicesDesc]
    obtain ⟨x, hx, hxp⟩ := hm i (List.mem_cons_self i is)
    have hrest : ∀ m ∈ is, ∃ y, (content.eraseIdx i).get? m = some y ∧
        y.type = "paragraph" := by
      intro m hmem
      obtain ⟨y, hy, hyp⟩ := hm m (List.mem_cons_of_mem i hmem)
      have hlt : m < i := (List.pairwise_cons.mp hp).1 m hmem
      refine ⟨y, ?_, hyp⟩
      rw [List.get?_eq_getElem?, List.getElem?_eraseIdx, if_pos hlt,
        ← List.get?_eq_getElem?]
      exact hy
    rw [ih (content.eraseIdx i) hp.of_cons hrest]
    exact filter_eraseIdx_of_false content i x hx (hpara x hxp)

/-- `nonParagraph` fails exactly on paragraphs. -/
theorem nonParagraph_paragraph (n : Node) (h : n.type = "paragraph") :
    nonParagraph n = false := by
  simp [nonParagraph, h]

/-- The cleanup-and-delete tail of one insertion-loop iteration preserves
`filter p` for any predicate failing on paragraphs. -/
theorem look_pop_filter (p : Node → Bool)
    (hpara : ∀ n : Node, n.type = "paragraph" → p n = false)
    (c1 : List Node) (idx : Nat) :
    (popIndicesDesc (lookaheadGo c1 idx [] [1, 2, 3]).1
        (lookaheadGo c1 idx [] [1, 2, 3]).2.reverse).filter p =
      c1.filter p := by
  have hmarks := lookahead_marks_paragraph [1, 2, 3] c1 idx []
    (fun m hm => absurd hm (List.not_mem_nil m))
  have hsorted : (lookaheadGo c1 idx [] [1, 2, 3]).2.Pairwise (· < ·) :=
    lookahead_marks_lt [1, 2, 3] (by decide) c1 idx [] List.Pairwise.nil
      (fun m hm => absurd hm (List.not_mem_nil m))
  rw [popIndicesDesc_filter p hpara _ _
    (List.pairwise_reverse.mpr hsorted)
    (fun m hm => hmarks m (List.mem_reverse.mp hm))]
  exact lookahead_filter p hpara [1, 2, 3] c1 idx []

/-- One insertion-loop iteration preserves `filter p` whenever `p` fails on
paragraphs and on freshly inserted image nodes. -/
theorem insertImageItem_filter (p : Node → Bool)
    (hpara : ∀ n : Node, n.type = "paragraph" → p n = false)
    (himg : ∀ (pg : Int) (s : String), p (imageNodeFor pg s) = false)
    (pm : List (String × Int)) (bm : List (String × UnifiedBlock))
    (c : List Node) (it : PyMuPdfItem) :
    (insertImageItem pm bm c it).filter p = c.filter p := by
  cases it with
  | text _ _ _ _ _ _ => rfl
  | image pg s bb =>
    rw [insertImageItem]
    cases hfind : findInsertionIndex pm bm pg bb.2.1 c 0 with
    | some i =>
      rw [look_pop_filter p hpara]
      exact filter_insertIdx_of_false c i (imageNodeFor pg s) (himg pg s)
    | none =>
      rw [look_pop_filter p hpara]
      rw [List.filter_append]
      rw [show List.filter p [imageNodeFor pg s] = [] from by
        rw [List.filter_cons, himg pg s]; simp]
      simp

/-- A sublist of non-paragraph nodes survives one insertion-loop iteration. -/
theorem sublist_look_pop (l1 : List Node)
    (hnp : ∀ x ∈ l1, nonParagraph x = true) (c1 : List Node) (idx : Nat)
    (h : l1.Sublist c1) :
    l1.Sublist (popIndicesDesc (lookaheadGo c1 idx [] [1, 2, 3]).1
      (lookaheadGo c1 idx [] [1, 2, 3]).2.reverse) := by
  have hself : l1.filter nonParagraph = l1 := List.filter_eq_self.mpr hnp
  have h1 : (l1.filter nonParagraph).Sublist (c1.filter nonParagraph) :=
    h.filter nonParagraph
  rw [hself] at h1
  have h2 := look_pop_filter nonParagraph nonParagraph_paragraph c1 idx
  exact (h1.trans (h2 ▸ List.filter_sublist _)).trans (List.Sublist.refl _)

/-- The insertion scan returns an index within the scanned list. -/
theorem findInsertionIndex_lt (pm : List (String × Int))
    (bm : List (String × UnifiedBlock)) (pg y0 : Int) :
    ∀ (content : List Node) (k i : Nat),
      findInsertionIndex pm bm pg y0 content k = some i →
      i < k + content.length := by
  intro content
  induction content with
  | nil => intro k i h; simp [findInsertionIndex] at h
  | cons n rest ih =>
    intro k i h
    rw [findInsertionIndex] at h
    simp only [List.length_cons]
    split at h
    · have := ih (k + 1) i h
      omega
    · split at h
      · obtain rfl : k = i := by simpa using h
        omega
      · split at h
        · have := ih (k + 1) i h
          omega
        · split at h
          · obtain rfl : k = i := by simpa using h
            omega
          · split at h
            · obtain rfl : k = i := by simpa using h
              omega
            · have := ih (k + 1) i h
              omega

/-- A sublist of non-paragraph nodes survives one full insertion-loop
iteration. -/
theorem sublist_insertImageItem (pm : List (String × Int))
    (bm : List (String × UnifiedBlock)) (l1 : List Node)
    (hnp : ∀ x ∈ l1, nonParagraph x = true) (c : List Node)
    (it : PyMuPdfItem) (h : l1.Sublist c) :
    l1.Sublist (insertImageItem pm bm c it) := by
  cases it with
  | text _ _ _ _ _ _ => exact h
  | image pg s bb =>
    rw [insertImageItem]
    cases hfind : findInsertionIndex pm bm pg bb.2.1 c 0 with
    | some i =>
      exact sublist_look_pop l1 hnp _ _ (h.trans (sublist_insertIdx c i _))
    | none =>
      exact sublist_look_pop l1 hnp _ _ (h.trans (List.sublist_append_left c _))

/-- The freshly inserted image node is present after its iteration. -/
theorem inserted_node_mem (pm : List (String × Int))
    (bm : List (String × UnifiedBlock)) (c : List Node) (pg y0 : Int)
    (s : String) (bb : Int × Int × Int × Int) :
    imageNodeFor pg s ∈ insertImageItem pm bm c (PyMuPdfItem.image pg s bb) := by
  rw [insertImageItem]
  have hnp : ∀ x ∈ [imageNodeFor pg s], nonParagraph x = true := by
    intro x hx
    rw [List.mem_singleton.mp hx]
    rfl
  cases hfind : findInsertionIndex pm bm pg bb.2.1 c 0 with
  | some i =>
    have hi : i ≤ c.length := by
      have := findInsertionIndex_lt pm bm pg bb.2.1 c 0 i hfind
      omega
    have hin : imageNodeFor pg s ∈ c.insertIdx i (imageNodeFor pg s) :=
      (List.mem_insertIdx hi).mpr (Or.inl rfl)
    exact List.singleton_sublist.mp
      (sublist_look_pop _ hnp _ _ (List.singleton_sublist.mpr hin))
  | none =>
    have hin : imageNodeFor pg s ∈ c ++ [imageNodeFor pg s] :=
      List.mem_append_right c (List.mem_singleton_self _)
    exact List.singleton_sublist.mp
      (sublist_look_pop _ hnp _ _ (List.singleton_sublist.mpr hin))

/-- `filter p` is invariant under the whole insertion loop for predicates
failing on paragraphs and on inserted image nodes. -/
theorem foldl_insertImageItem_filter (p : Node → Bool)
    (hpara : ∀ n : Node, n.type = "paragraph" → p n = false)
    (himg : ∀ (pg : Int) (s : String), p (imageNodeFor pg s) = false)
    (pm : List (String × Int)) (bm : List (String × UnifiedBlock)) :
    ∀ (items : List PyMuPdfItem) (c : List Node),
      (items.foldl (insertImageItem pm bm) c).filter p = c.filter p := by
  intro items
  induction items with
  | nil => intro c; rfl
  | cons it its ih =>
    intro c
    rw [List.foldl_cons, ih, insertImageItem_filter p hpara himg]

/-- A sublist of non-paragraph nodes survives the whole insertion loop. -/
theorem foldl_insertImageItem_sublist (pm : List (String × Int))
    (bm : List (String × UnifiedBlock)) (l1 : List Node)
    (hnp : ∀ x ∈ l1, nonParagraph x = true) :
    ∀ (items : List PyMuPdfItem) (c : List Node), l1.Sublist c →
      l1.Sublist (items.foldl (insertImageItem pm bm) c) := by
  intro items
  induction items with
  | nil => intro c h; exact h
  | cons it its ih =>
    intro c h
    rw [List.foldl_cons]
    exact ih _ (sublist_insertImageItem pm bm l1 hnp c it h)

/-- Every image item processed by the insertion loop is represented in the
final content by its freshly constructed image node. -/
theorem foldl_insertImageItem_inserted (pm : List (String × Int))
    (bm : List (String × UnifiedBlock)) :
    ∀ (items : List PyMuPdfItem) (c : List Node) (pg : Int) (s : String)
      (bb : Int × Int × Int × Int), PyMuPdfItem.image pg s bb ∈ items →
      imageNodeFor pg s ∈ items.foldl (insertImageItem pm bm) c := by
  intro items
  induction items with
  | nil => intro c pg s bb h; exact absurd h (List.not_mem_nil _)
  | cons it its ih =>
    intro c pg s bb h
    rw [List.foldl_cons]
    rcases List.mem_cons.mp h with h | h
    · have hmem : imageNodeFor pg s ∈ insertImageItem pm bm c it := by
        rw [← h]
        exact inserted_node_mem pm bm c pg 0 s bb
      exact List.singleton_sublist.mp
        (foldl_insertImageItem_sublist pm bm [imageNodeFor pg s]
          (by intro x hx; rw [List.mem_singleton.mp hx]; rfl) its _
          (List.singleton_sublist.mpr hmem))
    · exact ih _ pg s bb h

end PdfParser

namespace PdfParser

set_option maxRecDepth 16000

/-! ### Claims about the frame of the mutating passes (C7) and image
ordering (C2) -/

/-- The paragraph node of the C7 scenario: its whole text is one bracketed
image description. -/
def c7Paragraph : Node :=
  Node.mk "paragraph"
    (some { src := Option.none, alt := Option.none, title := Option.none,
            unified_block_id := some "u1" })
    [Node.mk "text" Option.none [] (some "[pic]")] Option.none

/-- The unified block anchoring the C7 paragraph at `y0 = 50` of page 1. -/
def c7Block : UnifiedBlock :=
  { match_method := "bbox", llama_item := cexL1,
    fitz_items := some [PyMuPdfItem.text 1 "x" (0, 0, 0) "F" 10 (0, 50, 5, 55)],
    conversion_rule := Option.none, id := "u1" }

/-- The zipped page of the C7 scenario: one unused image above the anchored
paragraph. -/
def c7Page : ZippedOutputsPage :=
  { page := 1, pymupdf_content := [PyMuPdfItem.image 1 "s" (0, 10, 5, 15)],
    unified_blocks := [c7Block] }

/-- The C7 input state. -/
def c7State : InsertImagesState :=
  { blocks := [c7Paragraph], zipped_pages := [c7Page] }

/-- Claim C7 as stated: neither the assembly emission step nor the image
pass ever removes a node present in the input content list — the input is a
prefix of the emitted list and a sublist of the image pass's output. -/
def C7_no_removal_claim : Prop :=
  (∀ (content : List Node) (constructed : Node) (bid : String),
    List.IsPrefix content (emit_block content constructed bid)) ∧
  (∀ (st out : InsertImagesState), insert_images st = Except.ok out →
    st.blocks.Sublist out.blocks)

/-- C7 fails on the code: the image pass's look-ahead cleanup deletes a
paragraph node whose text consists entirely of a bracketed image
description (`"[pic]"`), so an input node vanishes from the output. -/
theorem C7_counterexample : ¬ C7_no_removal_claim := fun h => by
  have h2 := h.2 c7State
    { blocks := [imageNodeFor 1 "s"], zipped_pages := [c7Page] } (by rfl)
  have hmem : c7Paragraph ∈ [imageNodeFor 1 "s"] :=
    h2.subset (List.mem_singleton_self c7Paragraph)
  have heq := congrArg Node.type (List.mem_singleton.mp hmem)
  exact absurd heq (by decide)

/-- C7 amended: `emit_block` only appends (the input content list is a
prefix of its output), and the image pass preserves every non-paragraph
input node in order; only paragraph nodes that look like markdown image
descriptions near an insertion point can be deleted. -/
theorem C7_amended_frame :
    (∀ (content : List Node) (constructed : Node) (bid : String),
      List.IsPrefix content (emit_block content constructed bid)) ∧
    (∀ (st out : InsertImagesState), insert_images st = Except.ok out →
      (st.blocks.filter nonParagraph).Sublist out.blocks) := by
  constructor
  · intro content constructed bid
    exact ⟨[stampUnifiedBlockId constructed bid], rfl⟩
  · intro st out h
    cases hh : imageHeaderSrcs st.blocks with
    | error e =>
      rw [insert_images, hh] at h
      exact (Except.noConfusion h : False).elim
    | ok hdr =>
      have h' : (if (pySortImages (imagesToInsert st.zipped_pages
            ((baseImageSrcs st.blocks).map some ++ hdr))).isEmpty then
              Except.ok st
            else
              Except.ok { st with
                blocks := (pySortImages (imagesToInsert st.zipped_pages
                  ((baseImageSrcs st.blocks).map some ++ hdr))).foldl
                    (insertImageItem (pageNumEntries st.zipped_pages)
                      (blockEntries st.zipped_pages)) st.blocks } :
            Except PyErr InsertImagesState) = Except.ok out := by
        rw [insert_images, hh] at h
        exact h
      split at h'
      · have hout : st = out := by simpa using h'
        rw [← hout]
        exact List.filter_sublist st.blocks
      · have hout : { st with
            blocks := (pySortImages (imagesToInsert st.zipped_pages
              ((baseImageSrcs st.blocks).map some ++ hdr))).foldl
                (insertImageItem (pageNumEntries st.zipped_pages)
                  (blockEntries st.zipped_pages)) st.blocks } = out := by
          simpa using h'
        rw [← hout]
        exact foldl_insertImageItem_sublist _ _ _
          (fun x hx => (List.mem_filter.mp hx).2) _ _
          (List.filter_sublist st.blocks)

/-- Witness for `C7_amended_frame` at the C7 scenario (the surviving filter
is empty there, the emitted list extends its input). -/
theorem C7_amended_frame_witness :
    List.IsPrefix [c7Paragraph]
      (emit_block [c7Paragraph] (imageNodeFor 1 "s") "b") ∧
    (c7State.blocks.filter nonParagraph).Sublist [imageNodeFor 1 "s"] :=
  ⟨C7_amended_frame.1 [c7Paragraph] (imageNodeFor 1 "s") "b",
   C7_amended_frame.2 c7State
     { blocks := [imageNodeFor 1 "s"], zipped_pages := [c7Page] } (by rfl)⟩

/-- The lower image (`y0 = 10`, source `"a"`) of the C2 scenario. -/
def c2ImgA : PyMuPdfItem := PyMuPdfItem.image 1 "a" (0, 10, 5, 15)

/-- The higher image (`y0 = 20`, source `"b"`) of the C2 scenario. -/
def c2ImgB : PyMuPdfItem := PyMuPdfItem.image 1 "b" (0, 20, 5, 25)

/-- The single page of the C2 scenario with two unused images. -/
def c2Page : ZippedOutputsPage :=
  { page := 1, pymupdf_content := [c2ImgA, c2ImgB], unified_blocks := [] }

/-- The C2 input state (empty document). -/
def c2State : InsertImagesState := { blocks := [], zipped_pages := [c2Page] }

/-- C2 evaluated on the code at the failing input: two same-page images with
`y0 = 10` (source `"a"`) and `y0 = 20` (source `"b"`) come out in descending
vertical order — the pass inserts `"a"` first, then `"b"` lands *before* it
because the freshly inserted image node carries no `unified_block_id` and its
vertical position therefore reads as `+inf`.  The claim requires `"a"`
(lower `y0`) to appear first. -/
theorem C2_same_page_descending_eval :
    insert_images c2State =
      Except.ok { blocks := [imageNodeFor 1 "b", imageNodeFor 1 "a"],
                  zipped_pages := [c2Page] } ∧
    c2ImgA.y0 < c2ImgB.y0 := by
  constructor
  · rfl
  · decide

end PdfParser

namespace PdfParser

/-! ### Claim C6: idempotence of the image pass -/

/-- Convenience accessor for stating hypotheses about image-item sources
(`""` for text items, which carry no `src` attribute). -/
def PyMuPdfItem.srcOrEmpty : PyMuPdfItem → String
  | PyMuPdfItem.image _ s _ => s
  | PyMuPdfItem.text _ _ _ _ _ _ => ""

/-- An image node of the content list with a nonempty source contributes
that source to the collected set. -/
theorem mem_baseImageSrcs (content : List Node) (n : Node) (s : String)
    (hn : n ∈ content) (htype : n.type = "image") (hsrc : attrSrc n = some s)
    (hne : s ≠ "") : s ∈ baseImageSrcs content := by
  rw [baseImageSrcs, List.mem_filterMap]
  refine ⟨n, hn, ?_⟩
  rw [if_pos (by rw [htype]; rfl), hsrc]
  dsimp only
  rw [if_neg (by simpa using hne)]

/-- Conversely, every collected source comes from an image node with that
nonempty source. -/
theorem baseImageSrcs_mem (content : List Node) (s : String)
    (h : s ∈ baseImageSrcs content) :
    ∃ n ∈ content, n.type = "image" ∧ attrSrc n = some s ∧ s ≠ "" := by
  rw [baseImageSrcs, List.mem_filterMap] at h
  obtain ⟨n, hn, hf⟩ := h
  refine ⟨n, hn, ?_⟩
  split at hf
  next htype =>
    split at hf
    next s' hs' =>
      split at hf
      · exact absurd hf (by simp)
      next hne =>
        have hss : s' = s := by simpa using hf
        subst hss
        exact ⟨by simpa using htype, hs', by simpa using hne⟩
    next => exact absurd hf (by simp)
  next => exact absurd hf (by simp)

/-- The header sources only depend on the list of `imageHeader` nodes. -/
theorem imageHeaderSrcs_congr (c1 c2 : List Node)
    (h : c1.filter (fun node => node.type == "imageHeader") =
      c2.filter (fun node => node.type == "imageHeader")) :
    imageHeaderSrcs c1 = imageHeaderSrcs c2 := by
  rw [imageHeaderSrcs, imageHeaderSrcs, h]

/-- Membership in a stable insertion step. -/
theorem mem_insertSortedByKey (x a : PyMuPdfItem) :
    ∀ (l : List PyMuPdfItem), a ∈ insertSortedByKey x l ↔ a = x ∨ a ∈ l := by
  intro l
  induction l with
  | nil => simp [insertSortedByKey]
  | cons y ys ih =>
    rw [insertSortedByKey]
    split
    · rw [List.mem_cons, ih, List.mem_cons]
      tauto
    · rw [List.mem_cons, List.mem_cons]

/-- Sorting the candidates does not change their membership. -/
theorem mem_pySortImages (l : List PyMuPdfItem) (a : PyMuPdfItem) :
    a ∈ pySortImages l ↔ a ∈ l := by
  have hgen : ∀ (l acc : List PyMuPdfItem),
      a ∈ l.foldl (fun acc x => insertSortedByKey x acc) acc ↔
        a ∈ acc ∨ a ∈ l := by
    intro l
    induction l with
    | nil => intro acc; simp
    | cons x xs ih =>
      intro acc
      rw [List.foldl_cons, ih, mem_insertSortedByKey, List.mem_cons]
      tauto
  rw [pySortImages, hgen]
  simp

end PdfParser

namespace PdfParser

/-- Evaluation of `insert_images` once the header sources are known. -/
theorem insert_images_eval (st : InsertImagesState) (hdr : List (Option String))
    (hh : imageHeaderSrcs st.blocks = Except.ok hdr) :
    insert_images st =
      if (pySortImages (imagesToInsert st.zipped_pages
          ((baseImageSrcs st.blocks).map some ++ hdr))).isEmpty then
        Except.ok st
      else
        Except.ok { st with
          blocks := (pySortImages (imagesToInsert st.zipped_pages
            ((baseImageSrcs st.blocks).map some ++ hdr))).foldl
              (insertImageItem (pageNumEntries st.zipped_pages)
                (blockEntries st.zipped_pages)) st.blocks } := by
  rw [insert_images, hh]
  rfl

/-- After a run of the image pass whose source set was built from `hdr`,
every image style item's (nonempty) source is present in the rebuilt source
set, so a second candidate collection is empty. -/
theorem run2_no_candidates (st st1 : InsertImagesState)
    (hdr : List (Option String))
    (hsrc : ∀ pg ∈ st.zipped_pages, ∀ it ∈ pg.pymupdf_content,
      it.type = "image" → it.srcOrEmpty ≠ "")
    (hblocks : st1.blocks = (pySortImages (imagesToInsert st.zipped_pages
      ((baseImageSrcs st.blocks).map some ++ hdr))).foldl
        (insertImageItem (pageNumEntries st.zipped_pages)
          (blockEntries st.zipped_pages)) st.blocks)
    (hzip : st1.zipped_pages = st.zipped_pages) :
    imagesToInsert st1.zipped_pages
      ((baseImageSrcs st1.blocks).map some ++ hdr) = [] := by
  rw [hzip, imagesToInsert]
  rw [List.flatMap_eq_nil_iff]
  intro pg hpg
  rw [List.filter_eq_nil_iff]
  intro it hit
  cases it with
  | text _ _ _ _ _ _ => simp
  | image p s bb =>
    have hs : s ≠ "" := hsrc pg hpg (PyMuPdfItem.image p s bb) hit rfl
    have hmem : (some s) ∈ (baseImageSrcs st1.blocks).map some ++ hdr := by
      by_cases hany : ((baseImageSrcs st.blocks).map some ++ hdr).any
          (fun e => e == some s) = true
      · obtain ⟨e, he, heq⟩ := List.any_eq_true.mp hany
        have he' : e = some s := eq_of_beq heq
        subst he'
        rcases List.mem_append.mp he with he | he
        · obtain ⟨s0, hs0, hs0e⟩ := List.mem_map.mp he
          have hs0s : s0 = s := by injection hs0e
          rw [hs0s] at hs0
          obtain ⟨n, hn, hntype, hnsrc, hnne⟩ := baseImageSrcs_mem st.blocks s hs0
          have hnp : nonParagraph n = true := by
            rw [nonParagraph, hntype]
            rfl
          have hnC : n ∈ st1.blocks := by
            rw [hblocks]
            exact List.singleton_sublist.mp
              (foldl_insertImageItem_sublist _ _ [n]
                (by intro x hx; rw [List.mem_singleton.mp hx]; exact hnp) _ _
                (List.singleton_sublist.mpr hn))
          exact List.mem_append_left _ (List.mem_map_of_mem some
            (mem_baseImageSrcs st1.blocks n s hnC hntype hnsrc hnne))
        · exact List.mem_append_right _ he
      · have hfalse : (((baseImageSrcs st.blocks).map some ++ hdr).any
            (fun e => e == some s)) = false := by
          cases hb : (((baseImageSrcs st.blocks).map some ++ hdr).any
              (fun e => e == some s))
          · rfl
          · exact absurd hb hany
        have hcand : PyMuPdfItem.image p s bb ∈ imagesToInsert st.zipped_pages
            ((baseImageSrcs st.blocks).map some ++ hdr) := by
          rw [imagesToInsert, List.mem_flatMap]
          refine ⟨pg, hpg, List.mem_filter.mpr ⟨hit, ?_⟩⟩
          show (!(((baseImageSrcs st.blocks).map some ++ hdr).any
            (fun e => e == some s))) = true
          rw [hfalse]
          rfl
        have hnode : imageNodeFor p s ∈ st1.blocks := by
          rw [hblocks]
          exact foldl_insertImageItem_inserted _ _ _ _ p s bb
            ((mem_pySortImages _ _).mpr hcand)
        exact List.mem_append_left _ (List.mem_map_of_mem some
          (mem_baseImageSrcs st1.blocks (imageNodeFor p s) s hnode rfl rfl hs))
    have hany2 : (((baseImageSrcs st1.blocks).map some ++ hdr).any
        (fun e => e == some s)) = true :=
      List.any_eq_true.mpr ⟨some s, hmem, by simp⟩
    show ¬ (!(((baseImageSrcs st1.blocks).map some ++ hdr).any
      (fun e => e == some s))) = true
    rw [hany2]
    simp

end PdfParser

namespace PdfParser

/-- Claim C6 as stated: for every document state and zipped-page list,
applying the image pass twice yields the same result as applying it once. -/
def C6_idempotent_claim : Prop :=
  ∀ (st st1 : InsertImagesState), insert_images st = Except.ok st1 →
    insert_images st1 = Except.ok st1

/-- The C6 counterexample page: one image style item whose `src` is the
empty string. -/
def c6Page : ZippedOutputsPage :=
  { page := 1, pymupdf_content := [PyMuPdfItem.image 1 "" (0, 10, 5, 15)],
    unified_blocks := [] }

/-- The C6 counterexample state. -/
def c6State : InsertImagesState := { blocks := [], zipped_pages := [c6Page] }

/-- The state after one run on the C6 counterexample. -/
def c6StateOnce : InsertImagesState :=
  { blocks := [imageNodeFor 1 ""], zipped_pages := [c6Page] }

/-- The state after two runs on the C6 counterexample: the empty-source
image was inserted a second time. -/
def c6StateTwice : InsertImagesState :=
  { blocks := [imageNodeFor 1 "", imageNodeFor 1 ""], zipped_pages := [c6Page] }

/-- C6 fails on the code: the empty-string source is falsy, so the image
node inserted by the first run is never added to the present-source set and
the second run inserts the same image again. -/
theorem C6_counterexample : ¬ C6_idempotent_claim := fun h => by
  have h2 := h c6State c6StateOnce (by rfl)
  rw [show insert_images c6StateOnce = Except.ok c6StateTwice from rfl] at h2
  have h3 : c6StateTwice = c6StateOnce := by
    injection h2
  have h4 := congrArg (fun (s : InsertImagesState) => s.blocks.length) h3
  exact absurd h4 (by decide)

/-- C6 amended: the image pass is idempotent on every state whose image
style items all carry a nonempty source (as the pymupdf extractor produces):
after one run, every candidate source is already present, so a second run
collects no candidates and returns its input unchanged. -/
theorem C6_amended_idempotent (st st1 : InsertImagesState)
    (hsrc : ∀ pg ∈ st.zipped_pages, ∀ it ∈ pg.pymupdf_content,
      it.type = "image" → it.srcOrEmpty ≠ "")
    (h1 : insert_images st = Except.ok st1) :
    insert_images st1 = Except.ok st1 := by
  cases hh : imageHeaderSrcs st.blocks with
  | error e =>
    rw [insert_images, hh] at h1
    exact (Except.noConfusion h1 : False).elim
  | ok hdr =>
    rw [insert_images_eval st hdr hh] at h1
    split at h1
    next hempty =>
      have hst : st = st1 := Except.ok.inj h1
      rw [← hst, insert_images_eval st hdr hh, if_pos hempty]
    next hempty =>
      have hst : ({ st with
          blocks := (pySortImages (imagesToInsert st.zipped_pages
            ((baseImageSrcs st.blocks).map some ++ hdr))).foldl
              (insertImageItem (pageNumEntries st.zipped_pages)
                (blockEntries st.zipped_pages)) st.blocks } :
          InsertImagesState) = st1 := Except.ok.inj h1
      have hblocks : st1.blocks = (pySortImages (imagesToInsert st.zipped_pages
          ((baseImageSrcs st.blocks).map some ++ hdr))).foldl
            (insertImageItem (pageNumEntries st.zipped_pages)
              (blockEntries st.zipped_pages)) st.blocks :=
        (congrArg InsertImagesState.blocks hst).symm
      have hzip : st1.zipped_pages = st.zipped_pages :=
        (congrArg InsertImagesState.zipped_pages hst).symm
      have hfilter : st1.blocks.filter (fun node => node.type == "imageHeader") =
          st.blocks.filter (fun node => node.type == "imageHeader") := by
        rw [hblocks]
        exact foldl_insertImageItem_filter _
          (fun n hn => by rw [hn]; rfl) (fun pg s => rfl) _ _ _ _
      have hh2 : imageHeaderSrcs st1.blocks = Except.ok hdr := by
        rw [imageHeaderSrcs_congr st1.blocks st.blocks hfilter]
        exact hh
      have hnone := run2_no_candidates st st1 hdr hsrc hblocks hzip
      rw [insert_images_eval st1 hdr hh2, if_pos (by rw [hnone]; rfl)]

/-- Witness for `C6_amended_idempotent`: a second run over the C7 scenario's
output changes nothing. -/
theorem C6_amended_idempotent_witness :
    insert_images { blocks := [imageNodeFor 1 "s"], zipped_pages := [c7Page] } =
      Except.ok { blocks := [imageNodeFor 1 "s"], zipped_pages := [c7Page] } :=
  C6_amended_idempotent c7State
    { blocks := [imageNodeFor 1 "s"], zipped_pages := [c7Page] }
    (by decide) (by rfl)

end PdfParser
